import Mathlib

/-!
# VESC firmware, MKESC 75/100 board: shutdown button debouncer and buzzer melodies

A shallow embedding of

* `hw_sample_shutdown_button` (`hwconf/MK/75_100/hw_mkesc_75_100_core.c`), the
  debouncer of the analog shutdown button, and
* `parse_note`, `play_note`, `play_melody` (`driver/pwm_buzzer.c`), the note
  parser and melody sequencer of the buzzer,

followed by theorems about them.

Conventions of the embedding:

* The C file-scope variables of the debouncer become the fields of `ButtonState`;
  one call of the function is one `Tick`: the state after the call, the buzzer
  calls it made, and the value it returned.
* Voltages and the rotational speed are C `float`s. They are read here as exact
  rational numbers: every comparison of the source is kept as it is written, and
  rounding is not modelled.
* `unsigned int` and `unsigned long` are 32 bits wide (the target is a Cortex-M4),
  `uint8_t` is 8 bits wide; arithmetic on them is on `Nat` with an explicit
  reduction modulo the width.
* A C string is a `List Char`; reading at its end yields the terminating NUL.
* `strtoul` belongs to the C library, not to the firmware; it is modelled from the
  C standard (base 10).
* The frequency of a note is a `float` computed with `pow`; it is kept as the
  integer semitone offset it is computed from, and `frequency_hz` reads the C
  expression over the real numbers where a theorem speaks of the frequency itself.
-/

namespace Bldc

/-! ## The shutdown button debouncer -/

/-- The buzzer calls made by the debouncer: `beep_off()` and `play_melody(m)`. -/
inductive BuzzerEvent where
  | beep_off : BuzzerEvent
  | play_melody (m : String) : BuzzerEvent
  deriving DecidableEq, Repr

/-- The melody played when a shutdown has been latched. -/
def MEL_JET_DISCONNECTED : String := "G5 E5 C5/2"

/-- The melody played first on an emergency latch. -/
def MEL_ERROR : String := "C/1 P/1 C/1"

/-- The edge threshold `#define RISING_EDGE_THRESHOLD 0.09`, in volts. -/
def RISING_EDGE_THRESHOLD : ℚ := 0.09

/-- The normal hold time `#define TIME_500MS 50`, in ticks. -/
def TIME_500MS : Nat := 50

/-- The emergency hold time `#define TIME_3S 300`, in ticks. -/
def TIME_3S : Nat := 300

/-- The speed gate `#define ERPM_THRESHOLD 100`. -/
def ERPM_THRESHOLD : ℚ := 100

/-- The number of values of a 32-bit `unsigned int`. -/
def UINT_RANGE : Nat := 4294967296

/-- The file-scope variables of the debouncer. -/
structure ButtonState where
  /-- Last sample-to-sample difference (`bt_diff`). -/
  bt_diff : ℚ
  /-- Last raw sample (`bt_lastval`), 0 while uninitialised. -/
  bt_lastval : ℚ
  /-- Estimated unpressed level (`bt_unpressed`), 0 while uninitialised. -/
  bt_unpressed : ℚ
  /-- Shutdown pending, waiting for the release (`will_poweroff`). -/
  will_poweroff : Bool
  /-- The pending shutdown is an emergency one (`force_poweroff`). -/
  force_poweroff : Bool
  /-- Ticks of sustained press (`bt_hold_counter`). -/
  bt_hold_counter : Nat
  deriving DecidableEq, Repr

/-- The outcome of one call of `hw_sample_shutdown_button`. -/
structure Tick where
  /-- The variables after the call. -/
  state : ButtonState
  /-- The buzzer calls made during the call, in order. -/
  events : List BuzzerEvent
  /-- The returned value: `false` requests the shutdown. -/
  ret : Bool
  deriving DecidableEq, Repr

/-- The state at boot: all variables are zero-initialised. -/
def boot : ButtonState :=
  { bt_diff := 0, bt_lastval := 0, bt_unpressed := 0,
    will_poweroff := false, force_poweroff := false, bt_hold_counter := 0 }

/-- One call of `hw_sample_shutdown_button`: `newval` is the value read by
`ADC_VOLTS(ADC_IND_SHUTDOWN)` and `rpm` what `mc_interface_get_rpm()` returns. -/
def hw_sample_shutdown_button (s : ButtonState) (newval rpm : ℚ) : Tick :=
  if s.bt_lastval = 0 then
    { state := { s with bt_lastval := newval }, events := [], ret := true }
  else
    let bt_diff : ℚ := newval - s.bt_lastval
    let is_steady : Bool := decide (|bt_diff| < 0.02)
    let is_rising_edge : Bool := decide (bt_diff > RISING_EDGE_THRESHOLD)
    let s1 : ButtonState := { s with bt_diff := bt_diff, bt_lastval := newval }
    if s1.bt_unpressed = 0 then
      if is_steady then
        { state := { s1 with bt_unpressed := newval }, events := [], ret := true }
      else
        { state := s1, events := [], ret := true }
    else if s1.will_poweroff then
      if s1.force_poweroff = false ∧ |rpm| > ERPM_THRESHOLD then
        { state := { s1 with will_poweroff := false, bt_hold_counter := 0 },
          events := [BuzzerEvent.beep_off], ret := true }
      else if bt_diff < -RISING_EDGE_THRESHOLD
          ∨ newval < s1.bt_unpressed + RISING_EDGE_THRESHOLD / 2 then
        { state := { s1 with bt_hold_counter := (s1.bt_hold_counter + 1) % UINT_RANGE },
          events := [BuzzerEvent.beep_off], ret := false }
      else
        { state := s1, events := [], ret := true }
    else if s1.bt_hold_counter = 0 then
      if is_rising_edge then
        { state := { s1 with bt_hold_counter := 1 }, events := [], ret := true }
      else if is_steady ∧ newval < s1.bt_unpressed + RISING_EDGE_THRESHOLD / 2 then
        { state := { s1 with bt_unpressed := s1.bt_unpressed * 0.9 + newval * 0.1 },
          events := [], ret := true }
      else
        { state := s1, events := [], ret := true }
    else
      if newval > s1.bt_unpressed + RISING_EDGE_THRESHOLD * 1.5 then
        let c : Nat := (s1.bt_hold_counter + 1) % UINT_RANGE
        if c > TIME_500MS then
          if |rpm| < ERPM_THRESHOLD then
            { state := { s1 with will_poweroff := true, bt_hold_counter := 0 },
              events := [BuzzerEvent.play_melody MEL_JET_DISCONNECTED], ret := true }
          else if c > TIME_3S then
            { state := { s1 with will_poweroff := true, force_poweroff := true,
                                 bt_hold_counter := 0 },
              events := [BuzzerEvent.play_melody MEL_ERROR,
                         BuzzerEvent.play_melody MEL_JET_DISCONNECTED],
              ret := true }
          else
            { state := { s1 with bt_hold_counter := c }, events := [], ret := true }
        else
          { state := { s1 with bt_hold_counter := c }, events := [], ret := true }
      else
        { state := { s1 with bt_hold_counter := 0 },
          events := [BuzzerEvent.beep_off], ret := true }

/-- The calls made for a sequence of ticks, each given as (sample, speed). -/
def run_ticks : ButtonState → List (ℚ × ℚ) → List Tick
  | _, [] => []
  | s, x :: rest =>
    (hw_sample_shutdown_button s x.1 x.2)
      :: run_ticks (hw_sample_shutdown_button s x.1 x.2).state rest

/-- The variables after a sequence of ticks. -/
def final_state : ButtonState → List (ℚ × ℚ) → ButtonState
  | s, [] => s
  | s, x :: rest => final_state (hw_sample_shutdown_button s x.1 x.2).state rest

/-- The values returned by a sequence of ticks, in order. -/
def outputs (s : ButtonState) (l : List (ℚ × ℚ)) : List Bool :=
  (run_ticks s l).map Tick.ret

/-- The buzzer calls made by a sequence of ticks, in order. -/
def buzzer_log (s : ButtonState) (l : List (ℚ × ℚ)) : List BuzzerEvent :=
  ((run_ticks s l).map Tick.events).flatten

/-! ## The note parser and the melody sequencer -/

/-- The terminating NUL of a C string. -/
def NUL : Char := Char.ofNat 0

/-- What `*ptr` reads: the first character, or the NUL at the end of the string. -/
def peek (s : List Char) : Char := s.headD NUL

/-- The C library's `isspace` in the "C" locale: space, and `\t \n \v \f \r`. -/
def isspace (c : Char) : Bool :=
  c.toNat == 32 || (9 ≤ c.toNat && c.toNat ≤ 13)

/-- The C library's `isdigit`: `'0'` to `'9'`. -/
def isdigit (c : Char) : Bool :=
  48 ≤ c.toNat && c.toNat ≤ 57

/-- The largest `unsigned long` of the target (32 bits). -/
def ULONG_MAX : Nat := 4294967295

/-- The digit loop of `strtoul`: the value of the leading decimal digits, continuing
from `acc`, and the rest of the string. -/
def scan_digits : List Char → Nat → Nat × List Char
  | [], acc => (acc, [])
  | c :: cs, acc =>
    if isdigit c then scan_digits cs (acc * 10 + (c.toNat - 48)) else (acc, c :: cs)

/-- The subject sequence of `strtoul` in base 10, read at the first character that
is not white space: an optional sign, then decimal digits. The result is the
converted value and the pointer after the digits, or `none` when there is no digit
to convert. A value that does not fit yields `ULONG_MAX`; a minus sign negates the
value in the unsigned type. -/
def strtoul_subject (t : List Char) : Option (Nat × List Char) :=
  let neg : Bool := peek t == '-'
  let u := if peek t == '-' || peek t == '+' then t.tail else t
  if isdigit (peek u) then
    let r := scan_digits u 0
    some (if r.1 > ULONG_MAX then ULONG_MAX
      else if neg then (UINT_RANGE - r.1) % UINT_RANGE else r.1, r.2)
  else
    none

/-- The C library's `strtoul(nptr, &endptr, 10)` as the C standard specifies it:
leading white space is skipped and the subject sequence is converted. The result
is the value and `endptr`. Without a conversion the value is 0 and `endptr` is
`nptr`. -/
def strtoul (nptr : List Char) : Nat × List Char :=
  match strtoul_subject (nptr.dropWhile isspace) with
  | some r => r
  | none => (0, nptr)

/-- The value `parse_note` stores in `*freq`: 0 for a pause, and for a pitched note
`440.0 * pow(2.0, semitone_offset_from_A4 / 12.0)`, kept as its semitone offset. -/
inductive Freq where
  | pause : Freq
  | tone (semitone_offset_from_A4 : Int) : Freq
  deriving DecidableEq, Repr

/-- The two results of `parse_note`, which are also the arguments of `play_tone`. -/
structure Note where
  /-- The frequency (`*freq`). -/
  freq : Freq
  /-- The duration in milliseconds (`*duration_ms`). -/
  duration_ms : Nat
  deriving DecidableEq, Repr

/-- The constant `const uint32_t whole_note_ms = 500`. -/
def whole_note_ms : Nat := 500

/-- The conversion of a 32-bit `unsigned int` to `int` (two's complement). -/
def to_int (u : Nat) : Int :=
  if u < 2147483648 then (u : Int) else (u : Int) - (UINT_RANGE : Int)

/-- The `int` part of the semitone sum of `parse_note`:
`(2 * A_offset) + (A_offset < -2) + is_sharp`, with `note_index = name - 'A'` and
`A_offset = ((note_index - 2 + 7) % 7) - 5`. (`%` agrees with that of C here: its
left operand is positive for `'A'..'G'`.) -/
def natural_offset (name : Char) (is_sharp : Int) : Int :=
  let note_index : Int := (name.toNat : Int) - 65
  let A_offset : Int := ((note_index - 2 + 7) % 7) - 5
  (2 * A_offset) + (if A_offset < -2 then 1 else 0) + is_sharp

/-- The semitone computation of `parse_note`: the `int` part plus
`(octave - 4) * 12`. `octave` is a 32-bit `unsigned int`, so that term and the sum
are computed modulo 2^32, and the result is converted back to `int`. -/
def semitone_offset_from_A4 (name : Char) (octave : Nat) (is_sharp : Int) : Int :=
  to_int (((natural_offset name is_sharp % (UINT_RANGE : Int)).toNat
    + (((octave + UINT_RANGE - 4) % UINT_RANGE) * 12) % UINT_RANGE) % UINT_RANGE)

/-- The first part of `parse_note` (the note or pause): the frequency and the
pointer after the note, or `none` where the source returns -1. -/
def parse_pitch (note_str : List Char) : Option (Freq × List Char) :=
  if peek note_str = 'P' then
    some (Freq.pause, note_str.tail)
  else if 'A' ≤ peek note_str ∧ peek note_str ≤ 'G' then
    let name := peek note_str
    let ptr := note_str.tail
    let r := strtoul ptr
    let octave : Nat := if r.2.length = ptr.length then 4 else r.1 % UINT_RANGE
    let is_sharp : Int := if peek r.2 = '#' then 1 else 0
    let ptr2 := if peek r.2 = '#' then r.2.tail else r.2
    some (Freq.tone (semitone_offset_from_A4 name octave is_sharp), ptr2)
  else
    none

/-- The second part of `parse_note` (the duration): the `uint8_t frac`, or `none`
where the source returns -1. -/
def parse_frac (ptr : List Char) : Option Nat :=
  if peek ptr = '/' then
    let frac := (strtoul ptr.tail).1 % 256
    if frac = 0 then none else some frac
  else
    some 4

/-- The function `parse_note`: `none` is the return value -1, `some n` the return
value 0 with the two results. -/
def parse_note (note_str : List Char) : Option Note :=
  match parse_pitch note_str with
  | none => none
  | some (freq, ptr) =>
    match parse_frac ptr with
    | none => none
    | some frac => some { freq := freq, duration_ms := whole_note_ms / frac }

/-- The loop of `play_melody`, giving the `play_tone` calls made, in order. With
`skipping = false` the pointer is at the test of the outer `while (*ptr)`; with
`skipping = true` it is at the test of the inner `while (*ptr && *ptr != ' ')`. -/
def melody_loop : Bool → List Char → List Note
  | _, [] => []
  | false, c :: cs =>
    if c = NUL then []
    else
      match parse_note (c :: cs) with
      | none => []
      | some n => n :: (if c ≠ ' ' then melody_loop true cs else melody_loop false cs)
  | true, c :: cs =>
    if c = NUL then []
    else if c ≠ ' ' then melody_loop true cs
    else melody_loop false cs

/-- The function `play_melody`: the `play_tone(freq, duration_ms)` calls it makes. -/
def play_melody (melody_string : List Char) : List Note :=
  melody_loop false melody_string

/-- The time for which the calls block: `play_tone` sleeps for `duration_ms`. -/
def blocking_ms (calls : List Note) : Nat :=
  (calls.map Note.duration_ms).sum

/-- The frequency in Hz that a `Freq` stands for, with the C expression
`440.0 * pow(2.0, semitone_offset_from_A4 / 12.0)` read over the real numbers. -/
noncomputable def frequency_hz : Freq → ℝ
  | Freq.pause => 0
  | Freq.tone n => 440 * (2 : ℝ) ^ ((n : ℝ) / 12)

/-! ## The tone output stage -/

/-- The timer clock `#define TIM_CLOCK 2000000`, in Hz. -/
def TIM_CLOCK : Nat := 2000000

/-- Modelled from the spec: `utils_truncate_number_uint32` (declared in `utils.h`,
its body is not among the sources) clamps `*number` into the range from `min` to
`max`; the result stands for the value left in `*number`. -/
def utils_truncate_number_uint32 (number min max : Nat) : Nat :=
  if number > max then max else if number < min then min else number

/-- What `pwm_buzzer_init` derives from the requested frequency. -/
structure BuzzerTimer where
  /-- The auto-reload register `HW_BUZZER_TIMER->ARR`, written through `(uint16_t)`. -/
  ARR : Nat
  /-- The prescaler register `HW_BUZZER_TIMER->PSC`. -/
  PSC : Nat
  /-- The returned frequency. -/
  freq_hz : Nat
  deriving DecidableEq, Repr

/-- The frequency part of `pwm_buzzer_init(freq_hz, duty)`: the clamp, the two
timer registers computed from the clamped frequency, and the return value. (The
duty cycle, a `float`, and the pin and channel set-up are left out.) -/
def pwm_buzzer_init (freq_hz : Nat) : BuzzerTimer :=
  let f := utils_truncate_number_uint32 freq_hz (TIM_CLOCK / 65000) (TIM_CLOCK / 100)
  { ARR := (TIM_CLOCK / f) % 65536,
    PSC := ((168000000 / 2) / TIM_CLOCK) % 65536 - 1,
    freq_hz := f }

/-- The example melody of the comment above `play_melody`, with its double spaces
between the groups of four notes. -/
def MEL_DOC_EXAMPLE : String := "D D F D  F G C5 A  A3 A3 C A3  C D G E"

/-! ## Notions of the specification used to state the theorems -/

/-- A sample `v` after the sample `prev` shows a release of the button: a falling
edge of more than 0.09 V, or a level below baseline + 0.045 V. -/
def shows_release (b prev v : ℚ) : Prop :=
  v - prev < -0.09 ∨ v < b + 0.045

instance (b prev v : ℚ) : Decidable (shows_release b prev v) :=
  inferInstanceAs (Decidable (v - prev < -0.09 ∨ v < b + 0.045))

/-- No sample of the list shows a release; `prev` is the sample before the list. -/
def held_without_release (b : ℚ) : ℚ → List (ℚ × ℚ) → Prop
  | _, [] => True
  | prev, x :: xs => ¬ shows_release b prev x.1 ∧ held_without_release b x.1 xs

/-- Every sample of the list is steady: within 0.02 V of the sample before it. -/
def steady_run : ℚ → List (ℚ × ℚ) → Prop
  | _, [] => True
  | prev, x :: xs => |x.1 - prev| < 0.02 ∧ steady_run x.1 xs

instance held_without_release_decidable (b : ℚ) :
    (prev : ℚ) → (l : List (ℚ × ℚ)) → Decidable (held_without_release b prev l)
  | _, [] => isTrue trivial
  | _, x :: xs =>
    @instDecidableAnd _ _ inferInstance (held_without_release_decidable b x.1 xs)

instance steady_run_decidable :
    (prev : ℚ) → (l : List (ℚ × ℚ)) → Decidable (steady_run prev l)
  | _, [] => isTrue trivial
  | _, x :: xs =>
    @instDecidableAnd _ _ inferInstance (steady_run_decidable x.1 xs)

/-- An idle state past warm-up whose last sample and baseline are both 1.0 V. -/
def idle_at_1V : ButtonState :=
  { bt_diff := 0, bt_lastval := 1, bt_unpressed := 1,
    will_poweroff := false, force_poweroff := false, bt_hold_counter := 0 }

/-- The first character admits a note: it is `P` or one of `A` to `G`. -/
def valid_first (tok : List Char) : Prop :=
  peek tok = 'P' ∨ ('A' ≤ peek tok ∧ peek tok ≤ 'G')

instance (tok : List Char) : Decidable (valid_first tok) :=
  inferInstanceAs (Decidable (peek tok = 'P' ∨ ('A' ≤ peek tok ∧ peek tok ≤ 'G')))

/-- The divisor written in a token: the decimal number that follows its first `/`,
or `none` when the token has no `/` or no digit follows it. -/
def written_divisor (tok : List Char) : Option Nat :=
  match tok.dropWhile (fun c => c != '/') with
  | [] => none
  | _ :: ds => if isdigit (peek ds) then some (scan_digits ds 0).1 else none

/-- A melody: its tokens, separated by single spaces. -/
def join_tokens : List (List Char) → List Char
  | [] => []
  | [t] => t
  | t :: t2 :: ts => t ++ ' ' :: join_tokens (t2 :: ts)

/-- A token of a melody: not empty, and free of spaces and of NUL. -/
def is_token (t : List Char) : Prop :=
  t ≠ [] ∧ ' ' ∉ t ∧ NUL ∉ t

instance (t : List Char) : Decidable (is_token t) :=
  inferInstanceAs (Decidable (t ≠ [] ∧ ' ' ∉ t ∧ NUL ∉ t))

/-- The notes of the tokens that precede the first token `parse_note` rejects, each
token parsed on its own. -/
def played_tokens : List (List Char) → List Note
  | [] => []
  | t :: ts =>
    match parse_note t with
    | none => []
    | some n => n :: played_tokens ts

/-- The string starts with something `strtoul` would read or skip: white space, a
sign or a digit. -/
def starts_number (t : List Char) : Bool :=
  isspace (peek t) || peek t == '+' || peek t == '-' || isdigit (peek t)

/-- The text of a number at the head of a string, in the form `strtoul` accepts:
white space, an optional sign, then at least one decimal digit (as many as follow).
It is empty where no such text stands at the head. -/
def number_text (s : List Char) : List Char :=
  let blanks := s.takeWhile isspace
  let t := s.dropWhile isspace
  let sign := if peek t == '-' || peek t == '+' then t.take 1 else []
  let digits := (t.drop sign.length).takeWhile isdigit
  if digits = [] then [] else blanks ++ sign ++ digits

/-- The text that follows the octave of a pitched token: the token without its
letter and without the number after the letter, if there is one. -/
def after_octave (tok : List Char) : List Char :=
  tok.tail.drop (number_text tok.tail).length

/-- The text that follows the note part of a token. The note part is `P` alone, or
a letter, then the octave number if one stands there, then `#` if it stands there. -/
def after_note (tok : List Char) : List Char :=
  if peek tok = 'P' then tok.tail
  else if peek (after_octave tok) = '#' then (after_octave tok).tail
  else after_octave tok

/-- The octave of a pitched token: the number after the letter as `strtoul` values
it, and 4 where no number stands there. -/
def octave_read (tok : List Char) : Nat :=
  if number_text tok.tail = [] then 4 else (strtoul tok.tail).1

/-- The sharp flag of a pitched token: 1 where `#` follows the octave, else 0. -/
def sharp_read (tok : List Char) : Int :=
  if peek (after_octave tok) = '#' then 1 else 0

/-- The divisor of a token: where `/` follows the note part, the number after it as
`strtoul` values it (0 without a number), kept in 8 bits; and 4 where no `/`
follows the note part. -/
def divisor_read (tok : List Char) : Nat :=
  if peek (after_note tok) = '/' then (strtoul (after_note tok).tail).1 % 256 else 4

/-- A note part in the order the code reads it: `P`, or a letter `A` to `G`,
followed by an optional octave digit, followed by an optional `#`. -/
def is_note_part : List Char → Bool
  | [c] => c == 'P' || (decide ('A' ≤ c) && decide (c ≤ 'G'))
  | [c, x] => (decide ('A' ≤ c) && decide (c ≤ 'G')) && (x == '#' || isdigit x)
  | [c, o, x] => (decide ('A' ≤ c) && decide (c ≤ 'G')) && isdigit o && x == '#'
  | _ => false

/-! ## Theorems: the debouncer -/

/-- C1: a tick returns false (power off now) exactly when the state is past
warm-up (last sample and baseline both non-zero), the shutdown was already pending
before the tick, it is not the case that the forced flag is clear and the speed
exceeds 100 in magnitude, and the sample shows a release (a drop of more than
0.09 or a level below baseline + 0.045). Otherwise it returns true. -/
theorem shutdown_reported_iff (s : ButtonState) (v r : ℚ) :
    ((hw_sample_shutdown_button s v r).ret = false ↔
      (s.bt_lastval ≠ 0 ∧ s.bt_unpressed ≠ 0) ∧ s.will_poweroff = true
        ∧ ¬ (s.force_poweroff = false ∧ |r| > 100)
        ∧ (v - s.bt_lastval < -0.09 ∨ v < s.bt_unpressed + 0.045))
    ∧ ((hw_sample_shutdown_button s v r).ret = true ↔
      ¬ ((s.bt_lastval ≠ 0 ∧ s.bt_unpressed ≠ 0) ∧ s.will_poweroff = true
        ∧ ¬ (s.force_poweroff = false ∧ |r| > 100)
        ∧ (v - s.bt_lastval < -0.09 ∨ v < s.bt_unpressed + 0.045))) := by
  have h45 : RISING_EDGE_THRESHOLD / 2 = (0.045 : ℚ) := by
    norm_num [RISING_EDGE_THRESHOLD]
  have h9 : RISING_EDGE_THRESHOLD = (0.09 : ℚ) := rfl
  have h100 : ERPM_THRESHOLD = (100 : ℚ) := rfl
  unfold hw_sample_shutdown_button
  simp only [h45, h9, h100]
  split_ifs <;> simp_all

theorem thr_half : RISING_EDGE_THRESHOLD / 2 = (0.045 : ℚ) := by
  norm_num [RISING_EDGE_THRESHOLD]

theorem thr_hold : RISING_EDGE_THRESHOLD * 1.5 = (0.135 : ℚ) := by
  norm_num [RISING_EDGE_THRESHOLD]

theorem tick_lastval (s : ButtonState) (v r : ℚ) :
    (hw_sample_shutdown_button s v r).state.bt_lastval = v := by
  unfold hw_sample_shutdown_button
  dsimp only
  split_ifs <;> rfl

theorem tick_edge (s : ButtonState) (v r : ℚ) (h1 : s.bt_lastval ≠ 0)
    (h2 : s.bt_unpressed ≠ 0) (hp : s.will_poweroff = false)
    (hc : s.bt_hold_counter = 0) (hv : v - s.bt_lastval > 0.09) :
    hw_sample_shutdown_button s v r =
      { state := { s with bt_diff := v - s.bt_lastval, bt_lastval := v,
                          bt_hold_counter := 1 },
        events := [], ret := true } := by
  have h9 : RISING_EDGE_THRESHOLD = (0.09 : ℚ) := rfl
  unfold hw_sample_shutdown_button
  simp [h1, h2, hp, hc, h9, hv]

theorem tick_hold (s : ButtonState) (v r : ℚ) (h1 : s.bt_lastval ≠ 0)
    (h2 : s.bt_unpressed ≠ 0) (hp : s.will_poweroff = false)
    (hc : s.bt_hold_counter ≠ 0) (hv : v > s.bt_unpressed + 0.135)
    (hn : s.bt_hold_counter + 1 ≤ 50 ∨ (100 ≤ |r| ∧ s.bt_hold_counter + 1 ≤ 300)) :
    hw_sample_shutdown_button s v r =
      { state := { s with bt_diff := v - s.bt_lastval, bt_lastval := v,
                          bt_hold_counter := s.bt_hold_counter + 1 },
        events := [], ret := true } := by
  have hmod : (s.bt_hold_counter + 1) % UINT_RANGE = s.bt_hold_counter + 1 :=
    Nat.mod_eq_of_lt (by unfold UINT_RANGE; omega)
  have h100 : ERPM_THRESHOLD = (100 : ℚ) := rfl
  unfold hw_sample_shutdown_button
  dsimp only
  simp only [thr_hold, hmod, h100, TIME_500MS, TIME_3S]
  rcases hn with hn | ⟨hr, hn⟩
  · simp [h1, h2, hp, hc, hv]
    omega
  · simp [h1, h2, hp, hc, hv, not_lt.mpr hr]
    omega

theorem tick_latch_normal (s : ButtonState) (v r : ℚ) (h1 : s.bt_lastval ≠ 0)
    (h2 : s.bt_unpressed ≠ 0) (hp : s.will_poweroff = false)
    (hc : s.bt_hold_counter ≠ 0) (hv : v > s.bt_unpressed + 0.135)
    (hn : 50 < s.bt_hold_counter + 1) (hn2 : s.bt_hold_counter + 1 < UINT_RANGE)
    (hr : |r| < 100) :
    hw_sample_shutdown_button s v r =
      { state := { s with bt_diff := v - s.bt_lastval, bt_lastval := v,
                          will_poweroff := true, bt_hold_counter := 0 },
        events := [BuzzerEvent.play_melody MEL_JET_DISCONNECTED], ret := true } := by
  have hmod : (s.bt_hold_counter + 1) % UINT_RANGE = s.bt_hold_counter + 1 :=
    Nat.mod_eq_of_lt hn2
  have h100 : ERPM_THRESHOLD = (100 : ℚ) := rfl
  unfold hw_sample_shutdown_button
  dsimp only
  simp only [thr_hold, hmod, h100, TIME_500MS, TIME_3S]
  simp [h1, h2, hp, hc, hv, hr]
  omega

theorem tick_latch_forced (s : ButtonState) (v r : ℚ) (h1 : s.bt_lastval ≠ 0)
    (h2 : s.bt_unpressed ≠ 0) (hp : s.will_poweroff = false)
    (hc : s.bt_hold_counter ≠ 0) (hv : v > s.bt_unpressed + 0.135)
    (hn : 300 < s.bt_hold_counter + 1) (hn2 : s.bt_hold_counter + 1 < UINT_RANGE)
    (hr : 100 ≤ |r|) :
    hw_sample_shutdown_button s v r =
      { state := { s with bt_diff := v - s.bt_lastval, bt_lastval := v,
                          will_poweroff := true, force_poweroff := true,
                          bt_hold_counter := 0 },
        events := [BuzzerEvent.play_melody MEL_ERROR,
                   BuzzerEvent.play_melody MEL_JET_DISCONNECTED],
        ret := true } := by
  have hmod : (s.bt_hold_counter + 1) % UINT_RANGE = s.bt_hold_counter + 1 :=
    Nat.mod_eq_of_lt hn2
  have h100 : ERPM_THRESHOLD = (100 : ℚ) := rfl
  unfold hw_sample_shutdown_button
  dsimp only
  simp only [thr_hold, hmod, h100, TIME_500MS, TIME_3S]
  simp [h1, h2, hp, hc, hv, not_lt.mpr hr]
  rw [if_pos (show 50 < s.bt_hold_counter + 1 by omega), if_pos hn]

theorem tick_abort (s : ButtonState) (v r : ℚ) (h1 : s.bt_lastval ≠ 0)
    (h2 : s.bt_unpressed ≠ 0) (hp : s.will_poweroff = false)
    (hc : s.bt_hold_counter ≠ 0) (hv : v ≤ s.bt_unpressed + 0.135) :
    hw_sample_shutdown_button s v r =
      { state := { s with bt_diff := v - s.bt_lastval, bt_lastval := v,
                          bt_hold_counter := 0 },
        events := [BuzzerEvent.beep_off], ret := true } := by
  unfold hw_sample_shutdown_button
  simp only [thr_hold]
  simp [h1, h2, hp, hc, not_lt.mpr hv]

theorem tick_pending_held (s : ButtonState) (v r : ℚ) (h1 : s.bt_lastval ≠ 0)
    (h2 : s.bt_unpressed ≠ 0) (hp : s.will_poweroff = true)
    (hg : ¬ (s.force_poweroff = false ∧ |r| > 100))
    (hv : ¬ (v - s.bt_lastval < -0.09 ∨ v < s.bt_unpressed + 0.045)) :
    hw_sample_shutdown_button s v r =
      { state := { s with bt_diff := v - s.bt_lastval, bt_lastval := v },
        events := [], ret := true } := by
  have h9 : RISING_EDGE_THRESHOLD = (0.09 : ℚ) := rfl
  have h100 : ERPM_THRESHOLD = (100 : ℚ) := rfl
  unfold hw_sample_shutdown_button
  dsimp only
  simp only [thr_half]
  simp only [h100, h9]
  rw [if_neg h1, if_neg h2, if_pos hp, if_neg hg, if_neg hv]

theorem tick_pending_release (s : ButtonState) (v r : ℚ) (h1 : s.bt_lastval ≠ 0)
    (h2 : s.bt_unpressed ≠ 0) (hp : s.will_poweroff = true)
    (hg : ¬ (s.force_poweroff = false ∧ |r| > 100))
    (hv : v - s.bt_lastval < -0.09 ∨ v < s.bt_unpressed + 0.045) :
    hw_sample_shutdown_button s v r =
      { state := { s with bt_diff := v - s.bt_lastval, bt_lastval := v,
                          bt_hold_counter := (s.bt_hold_counter + 1) % UINT_RANGE },
        events := [BuzzerEvent.beep_off], ret := false } := by
  have h9 : RISING_EDGE_THRESHOLD = (0.09 : ℚ) := rfl
  have h100 : ERPM_THRESHOLD = (100 : ℚ) := rfl
  unfold hw_sample_shutdown_button
  dsimp only
  simp only [thr_half]
  simp only [h100, h9]
  rw [if_neg h1, if_neg h2, if_pos hp, if_neg hg, if_pos hv]

theorem run_ticks_append (s : ButtonState) (l1 l2 : List (ℚ × ℚ)) :
    run_ticks s (l1 ++ l2) = run_ticks s l1 ++ run_ticks (final_state s l1) l2 := by
  induction l1 generalizing s with
  | nil => rfl
  | cons x xs ih => simp [run_ticks, final_state, ih]

theorem final_state_append (s : ButtonState) (l1 l2 : List (ℚ × ℚ)) :
    final_state s (l1 ++ l2) = final_state (final_state s l1) l2 := by
  induction l1 generalizing s with
  | nil => rfl
  | cons x xs ih => simp [final_state, ih]

theorem outputs_append (s : ButtonState) (l1 l2 : List (ℚ × ℚ)) :
    outputs s (l1 ++ l2) = outputs s l1 ++ outputs (final_state s l1) l2 := by
  simp [outputs, run_ticks_append]

theorem buzzer_log_append (s : ButtonState) (l1 l2 : List (ℚ × ℚ)) :
    buzzer_log s (l1 ++ l2) = buzzer_log s l1 ++ buzzer_log (final_state s l1) l2 := by
  simp [buzzer_log, run_ticks_append]

theorem final_state_lastval (s : ButtonState) (l : List (ℚ × ℚ)) :
    (final_state s l).bt_lastval = (l.map Prod.fst).getLastD s.bt_lastval := by
  induction l generalizing s with
  | nil => rfl
  | cons x xs ih =>
    simp only [final_state, List.map_cons, List.getLastD_cons]
    rw [ih, tick_lastval]

theorem outputs_of_forall (s : ButtonState) (l : List (ℚ × ℚ))
    (h : ∀ t ∈ run_ticks s l, t.ret = true) :
    outputs s l = List.replicate l.length true := by
  induction l generalizing s with
  | nil => rfl
  | cons x xs ih =>
    simp only [run_ticks, List.mem_cons, forall_eq_or_imp] at h
    simp only [outputs, run_ticks, List.map_cons, List.length_cons, List.replicate_succ, h.1]
    exact congrArg _ (ih _ h.2)

theorem buzzer_log_of_forall (s : ButtonState) (l : List (ℚ × ℚ))
    (h : ∀ t ∈ run_ticks s l, t.events = []) :
    buzzer_log s l = [] := by
  induction l generalizing s with
  | nil => rfl
  | cons x xs ih =>
    simp only [run_ticks, List.mem_cons, forall_eq_or_imp] at h
    simp only [buzzer_log, run_ticks, List.map_cons, List.flatten_cons, h.1, List.nil_append]
    exact ih _ h.2

/-- While the press is sustained and no latch is due, every tick only counts. -/
theorem hold_phase (b : ℚ) (hb : 0 < b) (l : List (ℚ × ℚ)) :
    ∀ s : ButtonState, s.bt_lastval ≠ 0 → s.bt_unpressed = b →
      s.will_poweroff = false → s.bt_hold_counter ≠ 0 →
      (∀ x ∈ l, x.1 > b + 0.135) →
      (s.bt_hold_counter + l.length ≤ 50
        ∨ ((∀ x ∈ l, 100 ≤ |x.2|) ∧ s.bt_hold_counter + l.length ≤ 300)) →
      (∀ t ∈ run_ticks s l, t.ret = true ∧ t.events = []
          ∧ t.state.will_poweroff = false ∧ t.state.force_poweroff = s.force_poweroff)
        ∧ (final_state s l).bt_lastval ≠ 0
        ∧ (final_state s l).bt_unpressed = b
        ∧ (final_state s l).will_poweroff = false
        ∧ (final_state s l).force_poweroff = s.force_poweroff
        ∧ (final_state s l).bt_hold_counter = s.bt_hold_counter + l.length := by
  induction l with
  | nil =>
    intro s h1 h2 hp hc _ _
    simp [run_ticks, final_state, h1, h2, hp]
  | cons x xs ih =>
    intro s h1 h2 hp hc hv hn
    have hx : x.1 > s.bt_unpressed + 0.135 := by
      rw [h2]; exact hv x (List.mem_cons_self _ _)
    have hx0 : x.1 ≠ 0 := by
      have := hv x (List.mem_cons_self _ _)
      intro h0
      rw [h0] at this
      norm_num at this
      linarith
    have hstep : hw_sample_shutdown_button s x.1 x.2 =
        { state := { s with bt_diff := x.1 - s.bt_lastval, bt_lastval := x.1,
                            bt_hold_counter := s.bt_hold_counter + 1 },
          events := [], ret := true } := by
      apply tick_hold s x.1 x.2 h1 (by rw [h2]; exact hb.ne') hp hc hx
      rcases hn with hn | ⟨hr, hn⟩
      · left
        simp only [List.length_cons] at hn
        omega
      · right
        simp only [List.length_cons] at hn
        exact ⟨hr x (List.mem_cons_self _ _), by omega⟩
    have hn' : (s.bt_hold_counter + 1) + xs.length ≤ 50
        ∨ ((∀ y ∈ xs, 100 ≤ |y.2|) ∧ (s.bt_hold_counter + 1) + xs.length ≤ 300) := by
      rcases hn with hn | ⟨hr, hn⟩
      · left
        simp only [List.length_cons] at hn
        omega
      · right
        simp only [List.length_cons] at hn
        exact ⟨fun y hy => hr y (List.mem_cons_of_mem _ hy), by omega⟩
    have ih' := ih { s with bt_diff := x.1 - s.bt_lastval, bt_lastval := x.1,
                            bt_hold_counter := s.bt_hold_counter + 1 }
      hx0 h2 hp (Nat.succ_ne_zero _) (fun y hy => hv y (List.mem_cons_of_mem _ hy)) hn'
    simp only [run_ticks, final_state, hstep, List.mem_cons, forall_eq_or_imp,
      List.length_cons]
    have hcnt := ih'.2.2.2.2.2
    dsimp only at hcnt
    refine ⟨⟨?_, ih'.1⟩, ih'.2.1, ih'.2.2.1, ih'.2.2.2.1, ih'.2.2.2.2.1, ?_⟩
    · simp [hp]
    · rw [hcnt]
      omega

/-- While a shutdown is pending and the button is still held, nothing happens. -/
theorem pending_phase (b : ℚ) (hb : 0 < b) (l : List (ℚ × ℚ)) :
    ∀ s : ButtonState, s.bt_lastval ≠ 0 → s.bt_unpressed = b →
      s.will_poweroff = true →
      held_without_release b s.bt_lastval l →
      (s.force_poweroff = true ∨ ∀ x ∈ l, |x.2| ≤ 100) →
      (∀ t ∈ run_ticks s l, t.ret = true ∧ t.events = []
          ∧ t.state.will_poweroff = true ∧ t.state.force_poweroff = s.force_poweroff)
        ∧ (final_state s l).bt_lastval ≠ 0
        ∧ (final_state s l).bt_unpressed = b
        ∧ (final_state s l).will_poweroff = true
        ∧ (final_state s l).force_poweroff = s.force_poweroff
        ∧ (final_state s l).bt_hold_counter = s.bt_hold_counter := by
  induction l with
  | nil =>
    intro s h1 h2 hp _ _
    simp [run_ticks, final_state, h1, h2, hp]
  | cons x xs ih =>
    intro s h1 h2 hp hh hg
    obtain ⟨hnr, hrest⟩ := hh
    have hg1 : ¬ (s.force_poweroff = false ∧ |x.2| > 100) := by
      rintro ⟨hf, hr⟩
      rcases hg with hg | hg
      · rw [hf] at hg; exact Bool.noConfusion hg
      · exact absurd (hg x (List.mem_cons_self _ _)) (not_le.mpr hr)
    have hnr' : ¬ (x.1 - s.bt_lastval < -0.09 ∨ x.1 < s.bt_unpressed + 0.045) := by
      rw [h2]; exact hnr
    have hx0 : x.1 ≠ 0 := by
      intro h0
      apply hnr
      right
      rw [h0]
      norm_num
      linarith
    have hstep := tick_pending_held s x.1 x.2 h1 (by rw [h2]; exact hb.ne') hp hg1 hnr'
    have ih' := ih { s with bt_diff := x.1 - s.bt_lastval, bt_lastval := x.1 }
      hx0 h2 hp hrest
      (by rcases hg with hg | hg
          · exact Or.inl hg
          · exact Or.inr (fun y hy => hg y (List.mem_cons_of_mem _ hy)))
    simp only [run_ticks, final_state, hstep, List.mem_cons, forall_eq_or_imp]
    refine ⟨⟨?_, ih'.1⟩, ih'.2⟩
    simp [hp]

theorem tick_idle_steady (s : ButtonState) (v r : ℚ) (hp : s.will_poweroff = false)
    (hc : s.bt_hold_counter = 0) (hv : |v - s.bt_lastval| < 0.02) :
    (hw_sample_shutdown_button s v r).ret = true
      ∧ (hw_sample_shutdown_button s v r).events = []
      ∧ (hw_sample_shutdown_button s v r).state.will_poweroff = false
      ∧ (hw_sample_shutdown_button s v r).state.force_poweroff = s.force_poweroff
      ∧ (hw_sample_shutdown_button s v r).state.bt_hold_counter = 0 := by
  have h9 : RISING_EDGE_THRESHOLD = (0.09 : ℚ) := rfl
  have hno : ¬ (v - s.bt_lastval > 0.09) := by
    have := (abs_lt.mp hv).2
    norm_num at this ⊢
    linarith
  unfold hw_sample_shutdown_button
  dsimp only
  simp only [h9, hp, hc, hno, decide_False]
  split_ifs <;> simp_all

/-- After an aborted press, steady samples leave the debouncer idle. -/
theorem idle_phase (l : List (ℚ × ℚ)) :
    ∀ s : ButtonState, s.will_poweroff = false → s.bt_hold_counter = 0 →
      steady_run s.bt_lastval l →
      ∀ t ∈ run_ticks s l, t.ret = true ∧ t.events = []
          ∧ t.state.will_poweroff = false ∧ t.state.force_poweroff = s.force_poweroff := by
  induction l with
  | nil =>
    intro s _ _ _ t ht
    simp [run_ticks] at ht
  | cons x xs ih =>
    intro s hp hc hst
    obtain ⟨hx, hrest⟩ := hst
    obtain ⟨h1, h2, h3, h4, h5⟩ := tick_idle_steady s x.1 x.2 hp hc hx
    have ih' := ih (hw_sample_shutdown_button s x.1 x.2).state h3 h5
      (by rw [tick_lastval]; exact hrest)
    simp only [run_ticks, List.mem_cons, forall_eq_or_imp]
    refine ⟨⟨h1, h2, h3, h4⟩, ?_⟩
    intro t ht
    have := ih' t ht
    rw [h4] at this
    exact this

theorem final_state_cons (s : ButtonState) (x : ℚ × ℚ) (l : List (ℚ × ℚ)) :
    final_state s (x :: l) = final_state (hw_sample_shutdown_button s x.1 x.2).state l := rfl

theorem run_ticks_cons (s : ButtonState) (x : ℚ × ℚ) (l : List (ℚ × ℚ)) :
    run_ticks s (x :: l) = hw_sample_shutdown_button s x.1 x.2
      :: run_ticks (hw_sample_shutdown_button s x.1 x.2).state l := rfl

theorem run_ticks_single (s : ButtonState) (x : ℚ × ℚ) :
    run_ticks s [x] = [hw_sample_shutdown_button s x.1 x.2] := rfl

theorem final_state_nil (s : ButtonState) : final_state s [] = s := rfl

theorem run_ticks_nil (s : ButtonState) : run_ticks s [] = [] := rfl

/-- The edge tick and the counting ticks after it (at most 300 ticks in all, the
counter not yet due for a latch): every tick returns true without a buzzer call
and the counter equals the number of ticks of the press. -/
theorem press_phase (s : ButtonState) (b : ℚ) (e : ℚ × ℚ) (hold : List (ℚ × ℚ))
    (hlast : 0 < s.bt_lastval) (hb : 0 < b) (hbase : s.bt_unpressed = b)
    (hc : s.bt_hold_counter = 0) (hp : s.will_poweroff = false)
    (hedge : e.1 - s.bt_lastval > 0.09)
    (hhold : ∀ x ∈ hold, x.1 > b + 0.135)
    (hn : 1 + hold.length ≤ 50 ∨ ((∀ x ∈ hold, 100 ≤ |x.2|) ∧ 1 + hold.length ≤ 300)) :
    (∀ t ∈ run_ticks s (e :: hold), t.ret = true ∧ t.events = []
        ∧ t.state.will_poweroff = false ∧ t.state.force_poweroff = s.force_poweroff)
      ∧ (final_state s (e :: hold)).bt_lastval ≠ 0
      ∧ (final_state s (e :: hold)).bt_unpressed = b
      ∧ (final_state s (e :: hold)).will_poweroff = false
      ∧ (final_state s (e :: hold)).force_poweroff = s.force_poweroff
      ∧ (final_state s (e :: hold)).bt_hold_counter = 1 + hold.length := by
  have he0 : e.1 ≠ 0 := by
    intro h0
    rw [h0] at hedge
    norm_num at hedge
    linarith
  have hstep := tick_edge s e.1 e.2 hlast.ne' (by rw [hbase]; exact hb.ne') hp hc hedge
  have hph := hold_phase b hb hold
    { s with bt_diff := e.1 - s.bt_lastval, bt_lastval := e.1, bt_hold_counter := 1 }
    he0 hbase hp Nat.one_ne_zero hhold hn
  rw [final_state_cons, run_ticks_cons, hstep]
  refine ⟨?_, hph.2⟩
  intro t ht
  rcases List.mem_cons.mp ht with ht | ht
  · subst ht
    simp [hp]
  · exact hph.1 t ht

/-- C3: normal hold. From an idle state past warm-up (positive last sample and
baseline b, counter 0, neither pending nor forced), a rising edge followed by 50
samples above b + 0.135, the speed below 100 in magnitude on the 51st tick and not
above 100 afterwards: the first 50 ticks return true with pending clear and no
buzzer call; the 51st tick plays the confirmation melody, latches pending (not
forced) and resets the counter; the ticks while the button is held return true;
the first tick that shows a release returns false; the melody is played exactly
once in the whole run. -/
theorem normal_hold_then_release (s : ButtonState) (b : ℚ) (e q rel : ℚ × ℚ)
    (hold held : List (ℚ × ℚ))
    (hlast : 0 < s.bt_lastval) (hb : 0 < b) (hbase : s.bt_unpressed = b)
    (hc : s.bt_hold_counter = 0) (hp : s.will_poweroff = false)
    (hf : s.force_poweroff = false)
    (hedge : e.1 - s.bt_lastval > 0.09)
    (hlen : hold.length = 49)
    (hhold : ∀ x ∈ hold ++ [q], x.1 > b + 0.135)
    (hq : |q.2| < 100)
    (hspeed : ∀ x ∈ held ++ [rel], |x.2| ≤ 100)
    (hheld : held_without_release b q.1 held)
    (hrel : shows_release b ((held.map Prod.fst).getLastD q.1) rel.1) :
    (∀ t ∈ run_ticks s (e :: hold),
        t.ret = true ∧ t.events = [] ∧ t.state.will_poweroff = false)
      ∧ ((hw_sample_shutdown_button (final_state s (e :: hold)) q.1 q.2).ret = true
        ∧ (hw_sample_shutdown_button (final_state s (e :: hold)) q.1 q.2).events
            = [BuzzerEvent.play_melody MEL_JET_DISCONNECTED]
        ∧ (final_state s (e :: hold ++ [q])).will_poweroff = true
        ∧ (final_state s (e :: hold ++ [q])).force_poweroff = false
        ∧ (final_state s (e :: hold ++ [q])).bt_hold_counter = 0)
      ∧ (∀ t ∈ run_ticks (final_state s (e :: hold ++ [q])) held,
          t.ret = true ∧ t.events = [] ∧ t.state.will_poweroff = true)
      ∧ (hw_sample_shutdown_button
          (final_state s (e :: hold ++ q :: held)) rel.1 rel.2).ret = false
      ∧ outputs s (e :: hold ++ q :: held ++ [rel])
          = List.replicate (51 + held.length) true ++ [false]
      ∧ buzzer_log s (e :: hold ++ q :: held ++ [rel])
          = [BuzzerEvent.play_melody MEL_JET_DISCONNECTED, BuzzerEvent.beep_off] := by
  have hq1 : q.1 > b + 0.135 := hhold q (by simp)
  have hq0 : q.1 ≠ 0 := by
    intro h0
    rw [h0] at hq1
    norm_num at hq1
    linarith
  -- ticks 1 to 50
  obtain ⟨hA, hA1, hA2, hA3, hA4, hA5⟩ := press_phase s b e hold hlast hb hbase hc hp hedge
    (fun x hx => hhold x (List.mem_append_left _ hx)) (Or.inl (by omega))
  -- tick 51
  have h51 := tick_latch_normal (final_state s (e :: hold)) q.1 q.2 hA1
    (by rw [hA2]; exact hb.ne') hA3 (by rw [hA5]; omega) (by rw [hA2]; exact hq1)
    (by rw [hA5]; omega) (by rw [hA5, hlen]; decide) hq
  have hs51 : final_state s (e :: hold ++ [q])
      = (hw_sample_shutdown_button (final_state s (e :: hold)) q.1 q.2).state := by
    rw [final_state_append, final_state_cons, final_state_nil]
  -- the ticks while the button is held
  have hB := pending_phase b hb held (final_state s (e :: hold ++ [q]))
    (by rw [hs51, h51]; exact hq0) (by rw [hs51, h51]; exact hA2) (by rw [hs51, h51])
    (by rw [hs51, h51]; exact hheld)
    (Or.inr (fun x hx => hspeed x (List.mem_append_left _ hx)))
  obtain ⟨hB0, hB1, hB2, hB3, hB4, -⟩ := hB
  have hsplit : e :: hold ++ q :: held = (e :: hold ++ [q]) ++ held := by simp
  have hforce : (final_state s (e :: hold ++ [q])).force_poweroff = false := by
    rw [hs51, h51]; simpa [hf] using hA4
  -- the release tick
  have hlastv : (final_state s (e :: hold ++ q :: held)).bt_lastval
      = (held.map Prod.fst).getLastD q.1 := by
    rw [hsplit, final_state_append, final_state_lastval, hs51, h51]
  have hR := tick_pending_release (final_state s (e :: hold ++ q :: held)) rel.1 rel.2
    (by rw [hsplit, final_state_append]; exact hB1)
    (by rw [hsplit, final_state_append, hB2]; exact hb.ne')
    (by rw [hsplit, final_state_append]; exact hB3)
    (by
      rintro ⟨-, hr⟩
      exact absurd (hspeed rel (by simp)) (not_le.mpr hr))
    (by rw [hlastv, hsplit, final_state_append, hB2]; exact hrel)
  -- every tick before the release tick
  have hall : ∀ t ∈ run_ticks s (e :: hold ++ q :: held), t.ret = true := by
    intro t ht
    rw [hsplit, run_ticks_append, run_ticks_append, run_ticks_single] at ht
    simp only [List.mem_append, List.mem_singleton] at ht
    rcases ht with (ht | ht) | ht
    · exact (hA t ht).1
    · rw [ht, h51]
    · exact (hB0 t ht).1
  refine ⟨fun t ht => ⟨(hA t ht).1, (hA t ht).2.1, (hA t ht).2.2.1⟩, ⟨?_, ?_, ?_, hforce, ?_⟩,
    fun t ht => ⟨(hB0 t ht).1, (hB0 t ht).2.1, (hB0 t ht).2.2.1⟩, ?_, ?_, ?_⟩
  · rw [h51]
  · rw [h51]
  · rw [hs51, h51]
  · rw [hs51, h51]
  · rw [hR]
  · rw [outputs_append, outputs_of_forall _ _ hall]
    simp only [outputs, run_ticks_single, List.map_cons, List.map_nil, hR,
      List.length_append, List.length_cons, hlen]
    congr 2
    omega
  · rw [hsplit, buzzer_log_append, buzzer_log_append, buzzer_log_append,
      buzzer_log_of_forall _ _ (fun t ht => (hA t ht).2.1),
      buzzer_log_of_forall _ _ (fun t ht => (hB0 t ht).2.1)]
    rw [← hsplit]
    simp only [buzzer_log, run_ticks_single, List.map_cons, List.map_nil, List.flatten_cons,
      List.flatten_nil, hR, h51, List.nil_append, List.append_nil]
    rfl

/-- C2, as stated, fails: with baseline 1.0 V and the level held at 1.2 V at speed
500, every one of 310 ticks returns true, the 301st included; no tick returns
false while the button is held. -/
theorem emergency_hold_reports_nothing_while_held :
    outputs idle_at_1V (List.replicate 310 (1.2, 500)) = List.replicate 310 true
      ∧ (hw_sample_shutdown_button
          (final_state idle_at_1V (List.replicate 300 (1.2, 500))) 1.2 500).ret ≠ false := by
  decide!

theorem normal_hold_then_release_witness :
    outputs idle_at_1V ((1.2, 0) :: List.replicate 49 (1.2, 0)
        ++ (1.2, 0) :: List.replicate 4 (1.2, 0) ++ [(1.0, 0)])
      = List.replicate (51 + (List.replicate 4 ((1.2 : ℚ), (0 : ℚ))).length) true ++ [false]
    ∧ buzzer_log idle_at_1V ((1.2, 0) :: List.replicate 49 (1.2, 0)
        ++ (1.2, 0) :: List.replicate 4 (1.2, 0) ++ [(1.0, 0)])
      = [BuzzerEvent.play_melody MEL_JET_DISCONNECTED, BuzzerEvent.beep_off] :=
  (normal_hold_then_release idle_at_1V 1 (1.2, 0) (1.2, 0) (1.0, 0)
    (List.replicate 49 (1.2, 0)) (List.replicate 4 (1.2, 0))
    (by decide) (by decide) rfl rfl rfl rfl (by decide!)
    (List.length_replicate _ _)
    (by
      intro x hx
      have hx' : x = ((1.2 : ℚ), (0 : ℚ)) := by
        rcases List.mem_append.mp hx with h | h
        · exact List.eq_of_mem_replicate h
        · exact List.mem_singleton.mp h
      rw [hx']
      decide!)
    (by decide!)
    (by
      intro x hx
      have hx' : |x.2| = 0 := by
        rcases List.mem_append.mp hx with h | h
        · rw [List.eq_of_mem_replicate h]; simp
        · rw [List.mem_singleton.mp h]; simp
      rw [hx']
      decide)
    (by simp [List.replicate, held_without_release, shows_release]; norm_num)
    (by simp [List.replicate, shows_release]; norm_num)).2.2.2.2

/-- C2, amended: emergency hold. From a state past warm-up with baseline b, counter
0 and nothing pending, a rising edge followed by 300 samples above b + 0.135, the
speed at least 100 in magnitude from the 51st tick on: the first 300 ticks return
true with no buzzer call and nothing pending (no trigger at tick 51); the 301st tick
plays the error and the disconnect melody, latches pending and forced, resets the
counter and returns true; the ticks while the button is still held return true; the
first tick that shows a release returns false, whatever the speed. -/
theorem emergency_hold_latches_then_release (s : ButtonState) (b : ℚ) (e q rel : ℚ × ℚ)
    (hold1 hold2 held : List (ℚ × ℚ))
    (hlast : 0 < s.bt_lastval) (hb : 0 < b) (hbase : s.bt_unpressed = b)
    (hc : s.bt_hold_counter = 0) (hp : s.will_poweroff = false)
    (hedge : e.1 - s.bt_lastval > 0.09)
    (hlen1 : hold1.length = 49) (hlen2 : hold2.length = 250)
    (hhold : ∀ x ∈ hold1 ++ hold2 ++ [q], x.1 > b + 0.135)
    (hfast : ∀ x ∈ hold2 ++ [q], 100 ≤ |x.2|)
    (hheld : held_without_release b q.1 held)
    (hrel : shows_release b ((held.map Prod.fst).getLastD q.1) rel.1) :
    (∀ t ∈ run_ticks s (e :: hold1 ++ hold2),
        t.ret = true ∧ t.events = [] ∧ t.state.will_poweroff = false)
      ∧ ((hw_sample_shutdown_button (final_state s (e :: hold1 ++ hold2)) q.1 q.2).ret = true
        ∧ (hw_sample_shutdown_button (final_state s (e :: hold1 ++ hold2)) q.1 q.2).events
            = [BuzzerEvent.play_melody MEL_ERROR,
               BuzzerEvent.play_melody MEL_JET_DISCONNECTED]
        ∧ (final_state s (e :: hold1 ++ hold2 ++ [q])).will_poweroff = true
        ∧ (final_state s (e :: hold1 ++ hold2 ++ [q])).force_poweroff = true
        ∧ (final_state s (e :: hold1 ++ hold2 ++ [q])).bt_hold_counter = 0)
      ∧ (∀ t ∈ run_ticks (final_state s (e :: hold1 ++ hold2 ++ [q])) held,
          t.ret = true ∧ t.events = [] ∧ t.state.will_poweroff = true)
      ∧ (hw_sample_shutdown_button
          (final_state s (e :: hold1 ++ hold2 ++ q :: held)) rel.1 rel.2).ret = false := by
  have hq1 : q.1 > b + 0.135 := hhold q (by simp)
  have hq0 : q.1 ≠ 0 := by
    intro h0
    rw [h0] at hq1
    norm_num at hq1
    linarith
  -- ticks 1 to 50
  obtain ⟨hA, hA1, hA2, hA3, hA4, hA5⟩ := press_phase s b e hold1 hlast hb hbase hc hp hedge
    (fun x hx => hhold x (by simp [hx])) (Or.inl (by omega))
  -- ticks 51 to 300
  obtain ⟨hC, hC1, hC2, hC3, hC4, hC5⟩ := hold_phase b hb hold2 (final_state s (e :: hold1))
    hA1 hA2 hA3 (by rw [hA5]; omega) (fun x hx => hhold x (by simp [hx]))
    (Or.inr ⟨fun x hx => hfast x (List.mem_append_left _ hx), by rw [hA5]; omega⟩)
  rw [← final_state_append] at hC1 hC2 hC3 hC4 hC5
  -- tick 301
  have h301 := tick_latch_forced (final_state s (e :: hold1 ++ hold2)) q.1 q.2 hC1
    (by rw [hC2]; exact hb.ne') hC3 (by rw [hC5, hA5]; omega) (by rw [hC2]; exact hq1)
    (by rw [hC5, hA5]; omega) (by rw [hC5, hA5, hlen1, hlen2]; decide)
    (hfast q (by simp))
  have hs301 : final_state s (e :: hold1 ++ hold2 ++ [q])
      = (hw_sample_shutdown_button (final_state s (e :: hold1 ++ hold2)) q.1 q.2).state := by
    rw [final_state_append, final_state_cons, final_state_nil]
  -- the ticks while the button is held
  obtain ⟨hB0, hB1, hB2, hB3, hB4, -⟩ := pending_phase b hb held
    (final_state s (e :: hold1 ++ hold2 ++ [q]))
    (by rw [hs301, h301]; exact hq0) (by rw [hs301, h301]; exact hC2) (by rw [hs301, h301])
    (by rw [hs301, h301]; exact hheld) (Or.inl (by rw [hs301, h301]))
  have hsplit : e :: hold1 ++ hold2 ++ q :: held = (e :: hold1 ++ hold2 ++ [q]) ++ held := by
    simp
  have hforce : (final_state s (e :: hold1 ++ hold2 ++ [q])).force_poweroff = true := by
    rw [hs301, h301]
  -- the release tick
  have hlastv : (final_state s (e :: hold1 ++ hold2 ++ q :: held)).bt_lastval
      = (held.map Prod.fst).getLastD q.1 := by
    rw [hsplit, final_state_append, final_state_lastval, hs301, h301]
  have hR := tick_pending_release (final_state s (e :: hold1 ++ hold2 ++ q :: held))
    rel.1 rel.2
    (by rw [hsplit, final_state_append]; exact hB1)
    (by rw [hsplit, final_state_append, hB2]; exact hb.ne')
    (by rw [hsplit, final_state_append]; exact hB3)
    (by
      rintro ⟨hff, -⟩
      rw [hsplit, final_state_append, hB4, hforce] at hff
      exact Bool.noConfusion hff)
    (by rw [hlastv, hsplit, final_state_append, hB2]; exact hrel)
  refine ⟨?_, ⟨?_, ?_, ?_, hforce, ?_⟩,
    fun t ht => ⟨(hB0 t ht).1, (hB0 t ht).2.1, (hB0 t ht).2.2.1⟩, ?_⟩
  · intro t ht
    rw [run_ticks_append] at ht
    rcases List.mem_append.mp ht with ht | ht
    · exact ⟨(hA t ht).1, (hA t ht).2.1, (hA t ht).2.2.1⟩
    · exact ⟨(hC t ht).1, (hC t ht).2.1, (hC t ht).2.2.1⟩
  · rw [h301]
  · rw [h301]
  · rw [hs301, h301]
  · rw [hs301, h301]
  · rw [hR]

theorem emergency_hold_latches_then_release_witness :
    (hw_sample_shutdown_button (final_state idle_at_1V
        ((1.2, 500) :: List.replicate 49 (1.2, 500) ++ List.replicate 250 (1.2, 500)))
        1.2 500).ret = true
    ∧ (hw_sample_shutdown_button (final_state idle_at_1V
        ((1.2, 500) :: List.replicate 49 (1.2, 500) ++ List.replicate 250 (1.2, 500)
          ++ (1.2, 500) :: List.replicate 9 (1.2, 500))) 1.0 500).ret = false :=
  have h := emergency_hold_latches_then_release idle_at_1V 1 (1.2, 500) (1.2, 500) (1.0, 500)
    (List.replicate 49 (1.2, 500)) (List.replicate 250 (1.2, 500))
    (List.replicate 9 (1.2, 500))
    (by decide) (by decide) rfl rfl rfl (by decide!)
    (List.length_replicate _ _) (List.length_replicate _ _)
    (by
      intro x hx
      have hx' : x = ((1.2 : ℚ), (500 : ℚ)) := by
        simp only [List.mem_append, List.mem_singleton] at hx
        rcases hx with (h | h) | h
        · exact List.eq_of_mem_replicate h
        · exact List.eq_of_mem_replicate h
        · exact h
      rw [hx']
      decide!)
    (by
      intro x hx
      have hx' : x = ((1.2 : ℚ), (500 : ℚ)) := by
        rcases List.mem_append.mp hx with h | h
        · exact List.eq_of_mem_replicate h
        · exact List.mem_singleton.mp h
      rw [hx']
      decide!)
    (by decide!)
    (by decide!)
  ⟨h.2.1.1, h.2.2.2⟩

/-- C10: short press. From an idle state past warm-up (positive last sample and
baseline b, counter 0, neither pending nor forced), a rising edge followed by
samples above b + 0.135, at most 50 ticks in all, and then a sample at or below
b + 0.135: that sample resets the counter (which had counted the press) to 0;
every tick of the run, and of any later run of steady samples, returns true with
pending and forced clear and plays no melody, whatever the speeds; the only buzzer
call of the whole run is the one beep_off of the abort. -/
theorem short_press_rejected (s : ButtonState) (b : ℚ) (e f : ℚ × ℚ)
    (hold later : List (ℚ × ℚ))
    (hlast : 0 < s.bt_lastval) (hb : 0 < b) (hbase : s.bt_unpressed = b)
    (hc : s.bt_hold_counter = 0) (hp : s.will_poweroff = false)
    (hf : s.force_poweroff = false)
    (hedge : e.1 - s.bt_lastval > 0.09)
    (hlen : 1 + hold.length ≤ 50)
    (hhold : ∀ x ∈ hold, x.1 > b + 0.135)
    (hfall : f.1 ≤ b + 0.135)
    (hlater : steady_run f.1 later) :
    (final_state s (e :: hold)).bt_hold_counter = 1 + hold.length
      ∧ (final_state s (e :: hold ++ [f])).bt_hold_counter = 0
      ∧ (∀ t ∈ run_ticks s (e :: hold ++ f :: later),
          t.ret = true ∧ t.state.will_poweroff = false ∧ t.state.force_poweroff = false
            ∧ ∀ m, BuzzerEvent.play_melody m ∉ t.events)
      ∧ buzzer_log s (e :: hold ++ f :: later) = [BuzzerEvent.beep_off] := by
  obtain ⟨hA, hA1, hA2, hA3, hA4, hA5⟩ := press_phase s b e hold hlast hb hbase hc hp hedge
    hhold (Or.inl hlen)
  have hab := tick_abort (final_state s (e :: hold)) f.1 f.2 hA1
    (by rw [hA2]; exact hb.ne') hA3 (by rw [hA5]; omega) (by rw [hA2]; exact hfall)
  have hsf : final_state s (e :: hold ++ [f])
      = (hw_sample_shutdown_button (final_state s (e :: hold)) f.1 f.2).state := by
    rw [final_state_append, final_state_cons, final_state_nil]
  have hI := idle_phase later (final_state s (e :: hold ++ [f]))
    (by rw [hsf, hab]; exact hA3) (by rw [hsf, hab])
    (by rw [hsf, hab]; exact hlater)
  have hIf : (final_state s (e :: hold ++ [f])).force_poweroff = false := by
    rw [hsf, hab]; simpa [hf] using hA4
  have hsplit : e :: hold ++ f :: later = (e :: hold ++ [f]) ++ later := by simp
  refine ⟨hA5, by rw [hsf, hab], ?_, ?_⟩
  · intro t ht
    rw [hsplit, run_ticks_append, run_ticks_append, run_ticks_single] at ht
    simp only [List.mem_append, List.mem_singleton] at ht
    rcases ht with (ht | ht) | ht
    · obtain ⟨h1, h2, h3, h4⟩ := hA t ht
      exact ⟨h1, h3, by rw [h4, hf], by simp [h2]⟩
    · rw [ht, hab]
      exact ⟨rfl, hA3, by simpa [hf] using hA4, by simp⟩
    · obtain ⟨h1, h2, h3, h4⟩ := hI t ht
      exact ⟨h1, h3, by rw [h4, hIf], by simp [h2]⟩
  · rw [hsplit, buzzer_log_append, buzzer_log_append,
      buzzer_log_of_forall _ _ (fun t ht => (hA t ht).2.1),
      buzzer_log_of_forall _ _ (fun t ht => (hI t ht).2.1)]
    simp only [buzzer_log, run_ticks_single, List.map_cons, List.map_nil, List.flatten_cons,
      List.flatten_nil, hab, List.nil_append, List.append_nil]

theorem short_press_rejected_witness :
    (final_state idle_at_1V ((1.2, 0) :: List.replicate 29 (1.2, 0))).bt_hold_counter
        = 1 + (List.replicate 29 ((1.2 : ℚ), (0 : ℚ))).length
      ∧ (final_state idle_at_1V
          ((1.2, 0) :: List.replicate 29 (1.2, 0) ++ [(1.0, 0)])).bt_hold_counter = 0
      ∧ buzzer_log idle_at_1V
          ((1.2, 0) :: List.replicate 29 (1.2, 0) ++ (1.0, 0) :: List.replicate 20 (1.0, 0))
        = [BuzzerEvent.beep_off] :=
  have h := short_press_rejected idle_at_1V 1 (1.2, 0) (1.0, 0)
    (List.replicate 29 (1.2, 0)) (List.replicate 20 (1.0, 0))
    (by decide) (by decide) rfl rfl rfl rfl (by decide!) (by simp)
    (by
      intro x hx
      rw [List.eq_of_mem_replicate hx]
      decide!)
    (by decide!)
    (by decide!)
  ⟨h.1, h.2.1, h.2.2.2⟩

/-! ## Theorems: the note parser -/

theorem parse_pitch_eq_none_iff (s : List Char) :
    parse_pitch s = none ↔ ¬ valid_first s := by
  unfold parse_pitch valid_first
  split_ifs with h1 h2
  · simp [h1]
  · simp [h2]
  · simp [h1, h2]

theorem parse_frac_eq_none_iff (p : List Char) :
    parse_frac p = none ↔ peek p = '/' ∧ (strtoul p.tail).1 % 256 = 0 := by
  unfold parse_frac
  by_cases h1 : peek p = '/'
  · by_cases h2 : (strtoul p.tail).1 % 256 = 0 <;> simp [h1, h2]
  · simp [h1]

theorem letter_toNat (name : Char) (h : 'A' ≤ name ∧ name ≤ 'G') :
    65 ≤ name.toNat ∧ name.toNat ≤ 71 := h

theorem letter_cases (name : Char) (h : 'A' ≤ name ∧ name ≤ 'G') :
    name = 'A' ∨ name = 'B' ∨ name = 'C' ∨ name = 'D' ∨ name = 'E' ∨ name = 'F'
      ∨ name = 'G' := by
  obtain ⟨h1, h2⟩ := letter_toNat name h
  have h65 : name = Char.ofNat name.toNat := (Char.ofNat_toNat name).symm
  generalize name.toNat = n at h1 h2 h65
  interval_cases n <;> rw [h65] <;> decide

/-- Where no number, no `#` and no `/` follows the letter, the defaults are used. -/
theorem parse_note_defaults (name c : Char) (rest : List Char)
    (hname : 'A' ≤ name ∧ name ≤ 'G')
    (hc : isspace c = false ∧ isdigit c = false ∧ c ≠ '+' ∧ c ≠ '-' ∧ c ≠ '#' ∧ c ≠ '/') :
    parse_note (name :: c :: rest)
      = some { freq := Freq.tone (semitone_offset_from_A4 name 4 0), duration_ms := 125 } := by
  obtain ⟨h1, h2, h3, h4, h5, h6⟩ := hc
  have hP : name ≠ 'P' := by
    rcases letter_cases name hname with h | h | h | h | h | h | h <;> rw [h] <;> decide
  have hsub : strtoul_subject (c :: rest) = none := by
    simp [strtoul_subject, peek, h2, h3, h4]
  have hst : strtoul (c :: rest) = (0, c :: rest) := by
    simp [strtoul, List.dropWhile, h1, hsub]
  simp [parse_note, parse_pitch, parse_frac, peek, hP, hname.1, hname.2, hst, h5, h6,
    whole_note_ms]

/-- C6: the semitone distance from A4 that `parse_note` computes in octave 4 is
C = -9, D = -7, E = -5, F = -4, G = -2, A = 0, B = +2, plus 1 for a sharp, both on
the computation itself and on the tokens `L`, `L4`, `L#` and `L4#`; the frequency
is 440 * 2^(semitones/12); A in octave 4 has distance 0 and frequency exactly 440;
C in octave 5 has distance 3 (one more than B4) and its ratio to A4 is 2^(3/12). -/
theorem semitone_table_and_reference_pitch :
    (∀ sharp ∈ [(0 : Int), 1],
        semitone_offset_from_A4 'C' 4 sharp = -9 + sharp
        ∧ semitone_offset_from_A4 'D' 4 sharp = -7 + sharp
        ∧ semitone_offset_from_A4 'E' 4 sharp = -5 + sharp
        ∧ semitone_offset_from_A4 'F' 4 sharp = -4 + sharp
        ∧ semitone_offset_from_A4 'G' 4 sharp = -2 + sharp
        ∧ semitone_offset_from_A4 'A' 4 sharp = 0 + sharp
        ∧ semitone_offset_from_A4 'B' 4 sharp = 2 + sharp)
    ∧ (∀ name ∈ ['A', 'B', 'C', 'D', 'E', 'F', 'G'],
        parse_note [name]
          = some { freq := Freq.tone (semitone_offset_from_A4 name 4 0), duration_ms := 125 }
        ∧ parse_note [name, '4']
          = some { freq := Freq.tone (semitone_offset_from_A4 name 4 0), duration_ms := 125 }
        ∧ parse_note [name, '#']
          = some { freq := Freq.tone (semitone_offset_from_A4 name 4 1), duration_ms := 125 }
        ∧ parse_note [name, '4', '#']
          = some { freq := Freq.tone (semitone_offset_from_A4 name 4 1), duration_ms := 125 })
    ∧ (∀ n : Int, frequency_hz (Freq.tone n) = 440 * (2 : ℝ) ^ ((n : ℝ) / 12))
    ∧ (parse_note "A4".toList = some { freq := Freq.tone 0, duration_ms := 125 }
        ∧ frequency_hz (Freq.tone 0) = 440)
    ∧ (parse_note "C5".toList = some { freq := Freq.tone 3, duration_ms := 125 }
        ∧ semitone_offset_from_A4 'C' 5 0 = semitone_offset_from_A4 'B' 4 0 + 1
        ∧ frequency_hz (Freq.tone 3) / frequency_hz (Freq.tone 0) = (2 : ℝ) ^ ((3 : ℝ) / 12)) := by
  have h0 : frequency_hz (Freq.tone 0) = 440 := by
    simp [frequency_hz]
  refine ⟨by decide!, by decide!, fun n => rfl, ⟨by decide!, h0⟩, by decide!, by decide!, ?_⟩
  · rw [h0]
    simp [frequency_hz]

theorem frequency_hz_octave (a k : Int) :
    frequency_hz (Freq.tone (a + 12 * k)) = frequency_hz (Freq.tone a) * (2 : ℝ) ^ k := by
  have h2 : (0 : ℝ) < 2 := by norm_num
  have he : (((a + 12 * k : Int) : ℝ)) / 12 = (a : ℝ) / 12 + (k : ℝ) := by
    push_cast
    ring
  simp only [frequency_hz]
  rw [he, Real.rpow_add h2, Real.rpow_intCast, mul_assoc]

theorem natural_offset_bounds (name : Char) (sharp : Int)
    (hname : 'A' ≤ name ∧ name ≤ 'G') (hsharp : sharp = 0 ∨ sharp = 1) :
    -9 ≤ natural_offset name sharp ∧ natural_offset name sharp ≤ 3 := by
  rcases letter_cases name hname with h | h | h | h | h | h | h <;>
    rcases hsharp with hs | hs <;> subst h hs <;> decide!

theorem wrap_octave (n : Int) (O : Nat) (hn : -9 ≤ n ∧ n ≤ 3) (hO : O ≤ 178956974) :
    to_int (((n % (UINT_RANGE : Int)).toNat
      + (((O + UINT_RANGE - 4) % UINT_RANGE) * 12) % UINT_RANGE) % UINT_RANGE)
      = n + 12 * ((O : Int) - 4) := by
  unfold to_int UINT_RANGE
  split_ifs <;> omega

theorem semitone_octave (name : Char) (O : Nat) (sharp : Int)
    (hname : 'A' ≤ name ∧ name ≤ 'G') (hsharp : sharp = 0 ∨ sharp = 1)
    (hO : O ≤ 178956974) :
    semitone_offset_from_A4 name O sharp
      = semitone_offset_from_A4 name 4 sharp + 12 * ((O : Int) - 4) := by
  have hb := natural_offset_bounds name sharp hname hsharp
  have h1 := wrap_octave (natural_offset name sharp) O hb hO
  have h2 := wrap_octave (natural_offset name sharp) 4 hb (by decide)
  unfold semitone_offset_from_A4
  rw [h1, h2]
  push_cast
  ring

/-- C7, as stated, fails: the parser reads the octave 178956975 of `A178956975`, and
there the 32-bit sum wraps: the computed offset is -2147483644, not
0 + 12 * (178956975 - 4), and the frequency is below 440 Hz instead of
440 * 2^(178956975 - 4). -/
theorem octave_scaling_fails_for_large_octave :
    parse_note "A178956975".toList
        = some { freq := Freq.tone (semitone_offset_from_A4 'A' 178956975 0),
                 duration_ms := 125 }
      ∧ semitone_offset_from_A4 'A' 178956975 0 = -2147483644
      ∧ semitone_offset_from_A4 'A' 178956975 0
          ≠ semitone_offset_from_A4 'A' 4 0 + 12 * ((178956975 : Int) - 4)
      ∧ frequency_hz (Freq.tone (semitone_offset_from_A4 'A' 178956975 0))
          ≠ frequency_hz (Freq.tone (semitone_offset_from_A4 'A' 4 0))
              * (2 : ℝ) ^ ((178956975 : Int) - 4) := by
  have h1 : semitone_offset_from_A4 'A' 178956975 0 = -2147483644 := by decide!
  have h2 : semitone_offset_from_A4 'A' 4 0 = 0 := by decide!
  refine ⟨by decide!, h1, by decide!, ?_⟩
  rw [h1, h2]
  have hlt : frequency_hz (Freq.tone (-2147483644)) < 440 := by
    simp only [frequency_hz]
    have : (2 : ℝ) ^ (((-2147483644 : Int) : ℝ) / 12) < 1 :=
      Real.rpow_lt_one_of_one_lt_of_neg (by norm_num) (by norm_num)
    linarith
  have hk : (0 : Int) ≤ (178956975 : Int) - 4 := by decide
  generalize (178956975 : Int) - 4 = k at hk ⊢
  have hge : (440 : ℝ) ≤ frequency_hz (Freq.tone 0) * (2 : ℝ) ^ k := by
    have h0 : frequency_hz (Freq.tone 0) = 440 := by simp [frequency_hz]
    rw [h0]
    have h1 : (1 : ℝ) ≤ (2 : ℝ) ^ k := one_le_zpow₀ (by norm_num) hk
    calc (440 : ℝ) = 440 * 1 := (mul_one _).symm
      _ ≤ 440 * (2 : ℝ) ^ k := mul_le_mul_of_nonneg_left h1 (by norm_num)
  exact ne_of_lt (lt_of_lt_of_le hlt hge)

/-- C7, amended: for every letter A to G, sharp flag 0 or 1 and octave O up to
178956974 (every octave digit 0 to 9 among them), the semitone offset computed for
octave O is the offset for octave 4 plus 12 * (O - 4), and so the frequency is that
of octave 4 times 2^(O-4). -/
theorem octave_scaling (name : Char) (O : Nat) (sharp : Int)
    (hname : 'A' ≤ name ∧ name ≤ 'G') (hsharp : sharp = 0 ∨ sharp = 1)
    (hO : O ≤ 178956974) :
    semitone_offset_from_A4 name O sharp
        = semitone_offset_from_A4 name 4 sharp + 12 * ((O : Int) - 4)
      ∧ frequency_hz (Freq.tone (semitone_offset_from_A4 name O sharp))
        = frequency_hz (Freq.tone (semitone_offset_from_A4 name 4 sharp))
            * (2 : ℝ) ^ ((O : Int) - 4) := by
  have h := semitone_octave name O sharp hname hsharp hO
  exact ⟨h, by rw [h, frequency_hz_octave]⟩

theorem octave_scaling_witness :
    semitone_offset_from_A4 'C' 5 0 = semitone_offset_from_A4 'C' 4 0 + 12 * (((5 : Nat) : Int) - 4)
      ∧ frequency_hz (Freq.tone (semitone_offset_from_A4 'C' 5 0))
        = frequency_hz (Freq.tone (semitone_offset_from_A4 'C' 4 0))
            * (2 : ℝ) ^ (((5 : Nat) : Int) - 4) :=
  octave_scaling 'C' 5 0 (by decide) (Or.inl rfl) (by decide)

theorem isdigit_not_special (c : Char) (h : isdigit c = true) :
    isspace c = false ∧ c ≠ '+' ∧ c ≠ '-' ∧ c ≠ '#' ∧ c ≠ '/' ∧ c ≠ ' ' := by
  have h' : 48 ≤ c.toNat ∧ c.toNat ≤ 57 := by
    simpa [isdigit] using h
  refine ⟨?_, ?_, ?_, ?_, ?_, ?_⟩
  · simp only [isspace, Bool.or_eq_false_iff, Bool.and_eq_false_iff, beq_eq_false_iff_ne,
      decide_eq_false_iff_not]
    constructor
    · omega
    · right; omega
  all_goals
    intro hc
    rw [hc] at h'
    revert h'
    decide

theorem scan_digits_append (u x : List Char) (hx : isdigit (peek x) = false) :
    ∀ acc : Nat, scan_digits (u ++ x) acc
      = ((scan_digits u acc).1, (scan_digits u acc).2 ++ x) := by
  induction u with
  | nil =>
    intro acc
    cases x with
    | nil => rfl
    | cons c cs =>
      have hc : isdigit c = false := hx
      simp [scan_digits, hc]
  | cons c cs ih =>
    intro acc
    by_cases hc : isdigit c = true
    · simp [scan_digits, hc, ih]
    · simp [scan_digits, hc]

theorem toDigits_facts :
    ∀ d < 256, 1 ≤ d →
      isdigit (peek (Nat.toDigits 10 d)) = true ∧ Nat.toDigits 10 d ≠ []
        ∧ scan_digits (Nat.toDigits 10 d) 0 = (d, []) := by
  decide!

theorem strtoul_digits (d : Nat) (hd1 : 1 ≤ d) (hd : d ≤ 255) (tail : List Char)
    (ht : isdigit (peek tail) = false) :
    strtoul (Nat.toDigits 10 d ++ tail) = (d, tail) := by
  obtain ⟨h1, h2, h3⟩ := toDigits_facts d (by omega) hd1
  have h4 := scan_digits_append (Nat.toDigits 10 d) tail ht 0
  rw [h3] at h4
  cases hds : Nat.toDigits 10 d with
  | nil => exact absurd hds h2
  | cons c cs =>
    rw [hds] at h1 h4
    have hc : isdigit c = true := h1
    obtain ⟨hs, hp, hm, -, -, -⟩ := isdigit_not_special c hc
    have hle : ¬ d > ULONG_MAX := by
      unfold ULONG_MAX
      omega
    simp only [List.cons_append] at h4
    simp [strtoul, strtoul_subject, List.dropWhile, hs, peek, hp, hm, hc, h4, hle]

/-- C9: the code misreads the documented order. On `C#5/2` it returns C sharp in
octave 4 (offset -8) with duration 125, where the documented notation means C sharp
in octave 5 (offset 4) with duration 250, which the code returns only for `C5#/2`.
In general, once a `#` directly follows the letter, an octave digit after it is not
read, and neither is what follows that digit. -/
theorem sharp_before_octave_misparsed :
    parse_note "C#5/2".toList = some { freq := Freq.tone (-8), duration_ms := 125 }
      ∧ semitone_offset_from_A4 'C' 5 1 = 4
      ∧ whole_note_ms / 2 = 250
      ∧ parse_note "C5#/2".toList = some { freq := Freq.tone 4, duration_ms := 250 }
      ∧ parse_note "C#5".toList = some { freq := Freq.tone (-8), duration_ms := 125 }
      ∧ (∀ (name c : Char) (rest : List Char), 'A' ≤ name ∧ name ≤ 'G' →
          isdigit c = true →
          parse_note (name :: '#' :: c :: rest)
            = some { freq := Freq.tone (semitone_offset_from_A4 name 4 1),
                     duration_ms := 125 }) := by
  refine ⟨by decide!, by decide!, by decide!, by decide!, by decide!, ?_⟩
  intro name c rest hname hc
  obtain ⟨-, -, -, h5, h6, -⟩ := isdigit_not_special c hc
  have hP : name ≠ 'P' := by
    rcases letter_cases name hname with h | h | h | h | h | h | h <;> rw [h] <;> decide
  have hst : strtoul ('#' :: c :: rest) = (0, '#' :: c :: rest) := by
    have h1 : isspace '#' = false := by decide
    have h2 : isdigit '#' = false := by decide
    simp [strtoul, strtoul_subject, List.dropWhile, h1, h2, peek]
  simp [parse_note, parse_pitch, parse_frac, peek, hP, hname.1, hname.2, hst, h6,
    whole_note_ms]

/-! ## Theorems: the melody sequencer -/

theorem starts_number_false (y : List Char) (hy : starts_number y = false) :
    isspace (peek y) = false ∧ peek y ≠ '+' ∧ peek y ≠ '-' ∧ isdigit (peek y) = false := by
  have h : ((isspace (peek y) = false ∧ ¬ peek y = '+') ∧ ¬ peek y = '-')
      ∧ isdigit (peek y) = false := by
    simpa [starts_number, not_or] using hy
  exact ⟨h.1.1.1, h.1.1.2, h.1.2, h.2⟩

theorem strtoul_subject_none (y : List Char) (hy : starts_number y = false) :
    strtoul_subject y = none := by
  obtain ⟨-, h2, h3, h4⟩ := starts_number_false y hy
  simp [strtoul_subject, h2, h3, h4]

theorem dropWhile_isspace_self (y : List Char) (hy : isspace (peek y) = false) :
    y.dropWhile isspace = y := by
  cases y with
  | nil => rfl
  | cons c cs =>
    have hc : isspace c = false := hy
    simp [List.dropWhile, hc]

/-- The subject sequence read in a string that is followed by a space and then by
something that is no number is the one read in the string alone. -/
theorem strtoul_subject_append (t y : List Char) (ht : t ≠ []) :
    strtoul_subject (t ++ ' ' :: y)
      = (strtoul_subject t).map (fun r => (r.1, r.2 ++ ' ' :: y)) := by
  have hsp : isdigit (peek (' ' :: y)) = false := by
    show isdigit ' ' = false
    decide
  cases t with
  | nil => exact absurd rfl ht
  | cons c cs =>
    by_cases hsign : (c == '-' || c == '+') = true
    · -- a sign: the digits are looked for after it
      cases cs with
      | nil =>
        have h1 : isdigit NUL = false := by decide
        simp [strtoul_subject, peek, hsign, h1]
        decide
      | cons d ds =>
        by_cases hd : isdigit d = true
        · have happ := scan_digits_append (d :: ds) (' ' :: y) hsp 0
          simp only [List.cons_append] at happ
          simp [strtoul_subject, peek, hsign, hd, happ]
        · simp [strtoul_subject, peek, hsign, hd]
    · by_cases hd : isdigit c = true
      · have happ := scan_digits_append (c :: cs) (' ' :: y) hsp 0
        simp only [List.cons_append] at happ
        simp [strtoul_subject, peek, hsign, hd, happ]
      · simp [strtoul_subject, peek, hsign, hd]

theorem strtoul_append (u y : List Char) (hy : starts_number y = false) :
    strtoul (u ++ ' ' :: y) = ((strtoul u).1, (strtoul u).2 ++ ' ' :: y) := by
  have hsp : isspace ' ' = true := by decide
  have key : (u ++ ' ' :: y).dropWhile isspace
      = if u.dropWhile isspace = [] then y else u.dropWhile isspace ++ ' ' :: y := by
    induction u with
    | nil =>
      simp [List.dropWhile, hsp, dropWhile_isspace_self y (starts_number_false y hy).1]
    | cons c cs ih =>
      by_cases hc : isspace c = true
      · simp [List.dropWhile, hc, ih]
      · simp [List.dropWhile, hc]
  unfold strtoul
  rw [key]
  by_cases hnil : u.dropWhile isspace = []
  · have h1 : strtoul_subject ([] : List Char) = none := by decide
    simp [hnil, strtoul_subject_none y hy, h1]
  · rw [if_neg hnil, strtoul_subject_append _ y hnil]
    cases strtoul_subject (u.dropWhile isspace) <;> simp

theorem parse_frac_append (p y : List Char) (hy : starts_number y = false) :
    parse_frac (p ++ ' ' :: y) = parse_frac p := by
  cases p with
  | nil =>
    have h1 : NUL ≠ '/' := by decide
    simp [parse_frac, peek, h1]
  | cons c cs =>
    simp only [parse_frac, List.cons_append, peek, List.headD_cons, List.tail_cons]
    rw [strtoul_append cs y hy]

theorem parse_pitch_append (t y : List Char) (ht : t ≠ []) (hy : starts_number y = false) :
    parse_pitch (t ++ ' ' :: y)
      = (parse_pitch t).map (fun r => (r.1, r.2 ++ ' ' :: y)) := by
  cases t with
  | nil => exact absurd rfl ht
  | cons c cs =>
    have hN : NUL ≠ '#' := by decide
    have hS : ' ' ≠ '#' := by decide
    by_cases hP : c = 'P'
    · simp [parse_pitch, peek, hP]
    · by_cases hL : 'A' ≤ c ∧ c ≤ 'G'
      · have hst := strtoul_append cs y hy
        rcases hres : strtoul cs with ⟨v, e⟩
        rw [hres] at hst
        simp only [parse_pitch, List.cons_append, peek, List.headD_cons, List.tail_cons, hP,
          if_false, hL, and_self, if_true, hst, hres, List.length_append,
          Nat.add_right_cancel_iff, Option.map_some']
        cases e with
        | nil => simp [hN, hS]
        | cons d ds =>
          by_cases hd : d = '#'
          · simp [hd]
          · simp [hd]
      · simp [parse_pitch, peek, hP, hL]

theorem parse_note_append (t y : List Char) (ht : t ≠ []) (hy : starts_number y = false) :
    parse_note (t ++ ' ' :: y) = parse_note t := by
  unfold parse_note
  rw [parse_pitch_append t y ht hy]
  cases parse_pitch t with
  | none => rfl
  | some r =>
    obtain ⟨f, ptr⟩ := r
    simp only [Option.map_some', parse_frac_append ptr y hy]

theorem melody_loop_skip (y : List Char) :
    ∀ u : List Char, ' ' ∉ u → NUL ∉ u →
      melody_loop true (u ++ ' ' :: y) = melody_loop false y := by
  intro u
  induction u with
  | nil =>
    intro _ _
    have h : ' ' ≠ NUL := by decide
    simp [melody_loop, h]
  | cons c cs ih =>
    intro h1 h2
    have hc1 : c ≠ ' ' := fun h => h1 (by simp [h])
    have hc2 : c ≠ NUL := fun h => h2 (by simp [h])
    have ih' := ih (fun h => h1 (List.mem_cons_of_mem _ h)) (fun h => h2 (List.mem_cons_of_mem _ h))
    simp [melody_loop, hc1, hc2, ih']

theorem melody_loop_skip_end :
    ∀ u : List Char, ' ' ∉ u → NUL ∉ u → melody_loop true u = [] := by
  intro u
  induction u with
  | nil =>
    intro _ _
    rfl
  | cons c cs ih =>
    intro h1 h2
    have hc1 : c ≠ ' ' := fun h => h1 (by simp [h])
    have hc2 : c ≠ NUL := fun h => h2 (by simp [h])
    have ih' := ih (fun h => h1 (List.mem_cons_of_mem _ h)) (fun h => h2 (List.mem_cons_of_mem _ h))
    simp [melody_loop, hc1, hc2, ih']

theorem play_melody_token (t y : List Char) (ht : is_token t) :
    play_melody (t ++ ' ' :: y)
      = match parse_note (t ++ ' ' :: y) with
        | none => []
        | some n => n :: play_melody y := by
  obtain ⟨h0, h1, h2⟩ := ht
  cases t with
  | nil => exact absurd rfl h0
  | cons c cs =>
    have hc1 : c ≠ ' ' := fun h => h1 (by simp [h])
    have hc2 : c ≠ NUL := fun h => h2 (by simp [h])
    have hs := melody_loop_skip y cs (fun h => h1 (List.mem_cons_of_mem _ h))
      (fun h => h2 (List.mem_cons_of_mem _ h))
    show melody_loop false (c :: (cs ++ ' ' :: y)) = _
    simp only [play_melody, melody_loop, hc2, if_false, hc1, ne_eq,
      not_false_eq_true, if_true, hs]
    rfl

theorem play_melody_last_token (t : List Char) (ht : is_token t) :
    play_melody t
      = match parse_note t with
        | none => []
        | some n => [n] := by
  obtain ⟨h0, h1, h2⟩ := ht
  cases t with
  | nil => exact absurd rfl h0
  | cons c cs =>
    have hc1 : c ≠ ' ' := fun h => h1 (by simp [h])
    have hc2 : c ≠ NUL := fun h => h2 (by simp [h])
    have hs := melody_loop_skip_end cs (fun h => h1 (List.mem_cons_of_mem _ h))
      (fun h => h2 (List.mem_cons_of_mem _ h))
    simp only [play_melody, melody_loop, hc2, if_false, hc1, ne_eq,
      not_false_eq_true, if_true, hs]

theorem peek_join_tokens (t : List Char) (ts : List (List Char)) (ht : t ≠ []) :
    peek (join_tokens (t :: ts)) = peek t := by
  cases t with
  | nil => exact absurd rfl ht
  | cons c cs => cases ts <;> rfl

theorem play_melody_join (tokens : List (List Char)) :
    (∀ t ∈ tokens, is_token t) → (∀ t ∈ tokens.tail, starts_number t = false) →
      play_melody (join_tokens tokens) = played_tokens tokens := by
  induction tokens with
  | nil =>
    intro _ _
    rfl
  | cons t ts ih =>
    intro htok hnum
    cases ts with
    | nil =>
      rw [join_tokens, play_melody_last_token t (htok t (by simp))]
      simp only [played_tokens]
    | cons t2 ts2 =>
      have ht : is_token t := htok t (by simp)
      have ht2 : is_token t2 := htok t2 (by simp)
      have hy : starts_number (join_tokens (t2 :: ts2)) = false := by
        have h := hnum t2 (by simp)
        unfold starts_number at h ⊢
        rw [peek_join_tokens t2 ts2 ht2.1]
        exact h
      have ih' := ih (fun u hu => htok u (List.mem_cons_of_mem _ hu))
        (fun u hu => hnum u (by
          simp only [List.tail_cons] at hu ⊢
          exact List.mem_cons_of_mem _ hu))
      rw [join_tokens, play_melody_token t _ ht, parse_note_append t _ ht.1 hy, ih']
      simp only [played_tokens]

/-- C5, as stated, fails: in the melody `C/ 2` the tokens `C/` and `2` are
separated by a single space and `parse_note` rejects the token `C/` (no divisor),
so nothing should be played; but `play_melody` plays a note of 250 ms, because
`strtoul`, called at the end of the first token, skips the space and reads the `2`.
Likewise in `C 5` the note played is C in octave 5, not the C of the token `C`. -/
theorem play_melody_reads_across_space :
    ((∀ t ∈ ["C/".toList, "2".toList], is_token t)
      ∧ join_tokens ["C/".toList, "2".toList] = "C/ 2".toList
      ∧ played_tokens ["C/".toList, "2".toList] = []
      ∧ play_melody "C/ 2".toList = [{ freq := Freq.tone (-9), duration_ms := 250 }]
      ∧ play_melody (join_tokens ["C/".toList, "2".toList])
          ≠ played_tokens ["C/".toList, "2".toList])
    ∧ ((∀ t ∈ ["C".toList, "5".toList], is_token t)
      ∧ played_tokens ["C".toList, "5".toList]
          = [{ freq := Freq.tone (-9), duration_ms := 125 }]
      ∧ play_melody (join_tokens ["C".toList, "5".toList])
          = [{ freq := Freq.tone 3, duration_ms := 125 }]) := by
  decide!

/-- C5, amended: for every melody whose tokens are separated by single spaces and
in which no token after the first begins with a digit, a sign or a white-space
character, `play_melody` makes one `play_tone` call for each token that precedes
the first token `parse_note` rejects, in order, and none after it; the blocking
time is the sum of their durations. `C5 E5 G5/2` plays notes of 125, 125 and 250 ms
(500 ms in all); a melody with `Z4` after two valid notes plays those two; the
empty string plays nothing. -/
theorem play_melody_plays_valid_tokens (tokens : List (List Char))
    (htok : ∀ t ∈ tokens, is_token t)
    (hnum : ∀ t ∈ tokens.tail, starts_number t = false) :
    play_melody (join_tokens tokens) = played_tokens tokens
      ∧ blocking_ms (play_melody (join_tokens tokens))
          = ((played_tokens tokens).map Note.duration_ms).sum
      ∧ (play_melody "C5 E5 G5/2".toList
            = [{ freq := Freq.tone 3, duration_ms := 125 },
               { freq := Freq.tone 7, duration_ms := 125 },
               { freq := Freq.tone 10, duration_ms := 250 }]
          ∧ blocking_ms (play_melody "C5 E5 G5/2".toList) = 500)
      ∧ play_melody "C5 E5 Z4 G5/2".toList
            = [{ freq := Freq.tone 3, duration_ms := 125 },
               { freq := Freq.tone 7, duration_ms := 125 }]
      ∧ play_melody "".toList = [] := by
  have h := play_melody_join tokens htok hnum
  refine ⟨h, by rw [h]; rfl, by decide!, by decide!, by decide!⟩

theorem play_melody_plays_valid_tokens_witness :
    play_melody (join_tokens ["C5".toList, "E5".toList, "Z4".toList, "G5/2".toList])
      = played_tokens ["C5".toList, "E5".toList, "Z4".toList, "G5/2".toList] :=
  (play_melody_plays_valid_tokens ["C5".toList, "E5".toList, "Z4".toList, "G5/2".toList]
    (by decide!) (by decide!)).1

/-! ## Theorems: the note parser against the notation -/

theorem scan_digits_rest (u : List Char) :
    ∀ acc : Nat, (scan_digits u acc).2 = u.dropWhile isdigit := by
  induction u with
  | nil =>
    intro acc
    rfl
  | cons c cs ih =>
    intro acc
    by_cases hc : isdigit c = true
    · simp [scan_digits, List.dropWhile, hc, ih]
    · simp [scan_digits, List.dropWhile, hc]

theorem takeWhile_isdigit_eq_nil (u : List Char) :
    u.takeWhile isdigit = [] ↔ isdigit (peek u) = false := by
  cases u with
  | nil =>
    have h : isdigit NUL = false := by decide
    simp [peek, h]
  | cons c cs =>
    by_cases hc : isdigit c = true
    · simp [peek, List.takeWhile, hc]
    · simp [peek, List.takeWhile, hc]

/-- The text after an optional sign, as `strtoul_subject` and `number_text` both
take it. -/
theorem sign_split (u : List Char) :
    u = (if peek u == '-' || peek u == '+' then u.take 1 else [])
          ++ (if peek u == '-' || peek u == '+' then u.tail else u)
      ∧ u.drop (if peek u == '-' || peek u == '+' then u.take 1 else []).length
          = (if peek u == '-' || peek u == '+' then u.tail else u) := by
  cases u with
  | nil =>
    have h : (NUL == '-' || NUL == '+') = false := by decide
    simp [peek, h]
  | cons c cs =>
    by_cases hc : (c == '-' || c == '+') = true
    · simp [peek, hc]
    · simp [peek, hc]

/-- The pointer `strtoul` returns stands right after the number text, and where
there is no number text nothing is converted. -/
theorem strtoul_reads_number_text (t : List Char) :
    t = number_text t ++ (strtoul t).2
      ∧ (number_text t = [] → strtoul t = (0, t)) := by
  have hsplit := sign_split (t.dropWhile isspace)
  have hws : t.takeWhile isspace ++ t.dropWhile isspace = t :=
    List.takeWhile_append_dropWhile isspace t
  by_cases hd : isdigit (peek (if peek (t.dropWhile isspace) == '-'
      || peek (t.dropWhile isspace) == '+' then (t.dropWhile isspace).tail
      else t.dropWhile isspace)) = true
  · -- a number stands at the head
    have hne : ¬ (List.takeWhile isdigit (if peek (t.dropWhile isspace) == '-'
        || peek (t.dropWhile isspace) == '+' then (t.dropWhile isspace).tail
        else t.dropWhile isspace)) = [] := by
      rw [takeWhile_isdigit_eq_nil, hd]
      exact Bool.noConfusion
    have hnt : number_text t = t.takeWhile isspace
        ++ (if peek (t.dropWhile isspace) == '-' || peek (t.dropWhile isspace) == '+'
            then (t.dropWhile isspace).take 1 else [])
        ++ List.takeWhile isdigit (if peek (t.dropWhile isspace) == '-'
            || peek (t.dropWhile isspace) == '+' then (t.dropWhile isspace).tail
            else t.dropWhile isspace) := by
      simp only [number_text, hsplit.2, hne, if_false]
    have hend : (strtoul t).2 = List.dropWhile isdigit (if peek (t.dropWhile isspace) == '-'
        || peek (t.dropWhile isspace) == '+' then (t.dropWhile isspace).tail
        else t.dropWhile isspace) := by
      simp only [strtoul, strtoul_subject, hd, if_true, scan_digits_rest]
    refine ⟨?_, ?_⟩
    · rw [hnt, hend, List.append_assoc, List.append_assoc, List.takeWhile_append_dropWhile,
        ← hsplit.1, hws]
    · intro h0
      rw [hnt] at h0
      simp only [List.append_eq_nil] at h0
      exact absurd h0.2 hne
  · -- no number
    have he : (List.takeWhile isdigit (if peek (t.dropWhile isspace) == '-'
        || peek (t.dropWhile isspace) == '+' then (t.dropWhile isspace).tail
        else t.dropWhile isspace)) = [] := by
      rw [takeWhile_isdigit_eq_nil]
      simpa using hd
    have hnt : number_text t = [] := by
      simp only [number_text, hsplit.2, he, if_true]
    have hst : strtoul t = (0, t) := by
      have hd' : isdigit (peek (if peek (t.dropWhile isspace) == '-'
          || peek (t.dropWhile isspace) == '+' then (t.dropWhile isspace).tail
          else t.dropWhile isspace)) = false := by simpa using hd
      simp only [strtoul, strtoul_subject, hd']
      rfl
    exact ⟨by rw [hnt, hst]; rfl, fun _ => hst⟩

theorem strtoul_endptr (t : List Char) :
    (strtoul t).2 = t.drop (number_text t).length := by
  have h := (strtoul_reads_number_text t).1
  have h2 : List.drop (number_text t).length (number_text t ++ (strtoul t).2)
      = (strtoul t).2 := List.drop_left _ _
  rw [← h] at h2
  exact h2.symm

theorem strtoul_endptr_length (t : List Char) :
    (strtoul t).2.length = t.length ↔ number_text t = [] := by
  have h := (strtoul_reads_number_text t).1
  constructor
  · intro hl
    have h2 := congrArg List.length h
    rw [List.length_append, hl] at h2
    exact List.length_eq_zero.mp (by omega)
  · intro h0
    rw [(strtoul_reads_number_text t).2 h0]

theorem strtoul_value_le (t : List Char) : (strtoul t).1 ≤ ULONG_MAX := by
  unfold strtoul strtoul_subject
  dsimp only
  split_ifs <;> simp only [ULONG_MAX, UINT_RANGE] at * <;> omega

theorem letter_ne_P (c : Char) (h : 'A' ≤ c ∧ c ≤ 'G') : c ≠ 'P' := by
  rcases letter_cases c h with h | h | h | h | h | h | h <;> rw [h] <;> decide

/-- The pitch part of `parse_note` reads the note part of the notation: it returns
the pointer after the note part, with the octave and the sharp flag that stand
there. -/
theorem parse_pitch_reads_note_part (s : List Char) :
    (peek s = 'P' → parse_pitch s = some (Freq.pause, after_note s))
      ∧ (('A' ≤ peek s ∧ peek s ≤ 'G') →
          parse_pitch s = some (Freq.tone
            (semitone_offset_from_A4 (peek s) (octave_read s) (sharp_read s)),
            after_note s)) := by
  constructor
  · intro hP
    simp [parse_pitch, after_note, hP]
  · intro hL
    have hP : peek s ≠ 'P' := letter_ne_P _ hL
    have hend : (strtoul s.tail).2 = after_octave s := strtoul_endptr s.tail
    have hoct : (if (strtoul s.tail).2.length = s.tail.length then 4
        else (strtoul s.tail).1 % UINT_RANGE) = octave_read s := by
      unfold octave_read
      by_cases h0 : number_text s.tail = []
      · rw [if_pos ((strtoul_endptr_length s.tail).mpr h0), if_pos h0]
      · rw [if_neg (fun h => h0 ((strtoul_endptr_length s.tail).mp h)), if_neg h0]
        have hle := strtoul_value_le s.tail
        exact Nat.mod_eq_of_lt (by unfold ULONG_MAX at hle; unfold UINT_RANGE; omega)
    simp only [parse_pitch, hP, if_false, hL, and_self, if_true, hoct]
    simp only [hend, after_note, sharp_read, hP, if_false]

theorem parse_frac_reads_divisor (s : List Char) :
    parse_frac (after_note s) = if divisor_read s = 0 then none else some (divisor_read s) := by
  unfold parse_frac divisor_read
  by_cases h1 : peek (after_note s) = '/'
  · by_cases h2 : (strtoul (after_note s).tail).1 % 256 = 0 <;> simp [h1, h2]
  · simp [h1]

/-- The whole of `parse_note` against the notation, for a token whose first
character is valid. -/
theorem parse_note_reads_token (s : List Char) (hv : valid_first s) :
    parse_note s =
      if divisor_read s = 0 then none
      else some { freq := if peek s = 'P' then Freq.pause
                    else Freq.tone
                      (semitone_offset_from_A4 (peek s) (octave_read s) (sharp_read s)),
                  duration_ms := 500 / divisor_read s } := by
  rcases hv with hP | hL
  · rw [parse_note, (parse_pitch_reads_note_part s).1 hP]
    simp only [parse_frac_reads_divisor s]
    by_cases hd : divisor_read s = 0
    · simp [hd]
    · simp [hd, hP, whole_note_ms]
  · have hP : peek s ≠ 'P' := letter_ne_P _ hL
    rw [parse_note, (parse_pitch_reads_note_part s).2 hL]
    simp only [parse_frac_reads_divisor s]
    by_cases hd : divisor_read s = 0
    · simp [hd]
    · simp [hd, hP, whole_note_ms]

theorem divisor_read_bounds (s : List Char) :
    divisor_read s ≤ 255 ∧ (peek (after_note s) ≠ '/' → divisor_read s = 4)
      ∧ (divisor_read s = 0 ↔
          peek (after_note s) = '/' ∧ (strtoul (after_note s).tail).1 % 256 = 0) := by
  unfold divisor_read
  by_cases h1 : peek (after_note s) = '/'
  · simp only [h1, if_true, ne_eq, not_true_eq_false, false_implies, true_and]
    exact ⟨by omega, trivial⟩
  · simp [h1]

theorem peek_cons (c : Char) (y : List Char) : peek (c :: y) = c := rfl

theorem number_text_none (y : List Char)
    (hy : isspace (peek y) = false ∧ peek y ≠ '-' ∧ peek y ≠ '+'
      ∧ isdigit (peek y) = false) :
    number_text y = [] := by
  obtain ⟨h1, h2, h3, h4⟩ := hy
  have hd : y.dropWhile isspace = y := dropWhile_isspace_self y h1
  have ht : y.takeWhile isdigit = [] := (takeWhile_isdigit_eq_nil y).mpr h4
  simp [number_text, hd, h2, h3, ht]

theorem number_text_digit (o : Char) (y : List Char) (ho : isdigit o = true)
    (hy : isdigit (peek y) = false) :
    number_text (o :: y) = [o] := by
  obtain ⟨h1, h2, h3, -, -, -⟩ := isdigit_not_special o ho
  have ht : y.takeWhile isdigit = [] := (takeWhile_isdigit_eq_nil y).mpr hy
  simp [number_text, List.takeWhile, List.dropWhile, h1, peek, h2, h3, ho, ht]

/-- After a note part in the code's order, the text that follows is what
`after_note` yields, provided that text does not itself continue the note part. -/
theorem after_note_of_note_part (p y : List Char) (hp : is_note_part p = true)
    (hy : isspace (peek y) = false ∧ peek y ≠ '-' ∧ peek y ≠ '+'
      ∧ isdigit (peek y) = false ∧ peek y ≠ '#') :
    valid_first (p ++ y) ∧ after_note (p ++ y) = y := by
  obtain ⟨h1, h2, h3, h4, h5⟩ := hy
  have hny := number_text_none y ⟨h1, h2, h3, h4⟩
  have hsharp : number_text ('#' :: y) = [] :=
    number_text_none ('#' :: y) (by simp only [peek_cons]; decide)
  match p, hp with
  | [c], hp =>
    by_cases hP : c = 'P'
    · subst hP
      exact ⟨Or.inl rfl, by simp [after_note, peek_cons]⟩
    · have hL : 'A' ≤ c ∧ c ≤ 'G' := by
        simpa [is_note_part, hP] using hp
      exact ⟨Or.inr hL, by simp [after_note, after_octave, peek_cons, hP, hny, h5]⟩
  | [c, x], hp =>
    have hp' : ('A' ≤ c ∧ c ≤ 'G') ∧ (x = '#' ∨ isdigit x = true) := by
      simpa [is_note_part] using hp
    have hP : c ≠ 'P' := letter_ne_P c hp'.1
    refine ⟨Or.inr hp'.1, ?_⟩
    rcases hp'.2 with hx | hx
    · subst hx
      simp [after_note, after_octave, peek_cons, hP, hsharp]
    · have hnx := number_text_digit x y hx h4
      simp [after_note, after_octave, peek_cons, hP, hnx, h5]
  | [c, o, x], hp =>
    have hp' : (('A' ≤ c ∧ c ≤ 'G') ∧ isdigit o = true) ∧ x = '#' := by
      simpa [is_note_part] using hp
    have hP : c ≠ 'P' := letter_ne_P c hp'.1.1
    obtain ⟨⟨hL, ho⟩, hx⟩ := hp'
    subst hx
    have hno := number_text_digit o ('#' :: y) ho (by simp only [peek_cons]; decide)
    exact ⟨Or.inr hL, by simp [after_note, after_octave, peek_cons, hP, hno]⟩

theorem scan_digits_stop (tail : List Char) (acc : Nat) (ht : isdigit (peek tail) = false) :
    scan_digits tail acc = (acc, tail) := by
  cases tail with
  | nil => rfl
  | cons c cs =>
    have hc : isdigit c = false := ht
    simp [scan_digits, hc]

theorem strtoul_zero (tail : List Char) (ht : isdigit (peek tail) = false) :
    strtoul ('0' :: tail) = (0, tail) := by
  have h1 : isspace '0' = false := by decide
  have h2 : isdigit '0' = true := by decide
  simp [strtoul, strtoul_subject, List.dropWhile, h1, h2, peek_cons, scan_digits,
    scan_digits_stop tail _ ht]

theorem strtoul_256 (tail : List Char) (ht : isdigit (peek tail) = false) :
    strtoul ('2' :: '5' :: '6' :: tail) = (256, tail) := by
  have h1 : isspace '2' = false := by decide
  have h2 : isdigit '2' = true := by decide
  have h5 : isdigit '5' = true := by decide
  have h6 : isdigit '6' = true := by decide
  have hle : ¬ 256 > ULONG_MAX := by decide
  simp [strtoul, strtoul_subject, List.dropWhile, h1, h2, h5, h6, peek_cons, scan_digits,
    scan_digits_stop tail _ ht, hle]

theorem strtoul_no_number (tail : List Char) (ht : starts_number tail = false) :
    strtoul tail = (0, tail) := by
  obtain ⟨h1, h2, h3, h4⟩ := starts_number_false tail ht
  exact (strtoul_reads_number_text tail).2 (number_text_none tail ⟨h1, h3, h2, h4⟩)

/-- An error after every note part: a `/` followed by 0, by 256, or by no number. -/
theorem parse_note_bad_fraction (p : List Char) (hp : is_note_part p = true) :
    (∀ tail : List Char, isdigit (peek tail) = false →
        parse_note (p ++ '/' :: '0' :: tail) = none
          ∧ parse_note (p ++ '/' :: '2' :: '5' :: '6' :: tail) = none)
      ∧ (∀ tail : List Char, starts_number tail = false →
        parse_note (p ++ '/' :: tail) = none) := by
  have hsl : ∀ y : List Char, isspace (peek ('/' :: y)) = false ∧ peek ('/' :: y) ≠ '-'
      ∧ peek ('/' :: y) ≠ '+' ∧ isdigit (peek ('/' :: y)) = false
      ∧ peek ('/' :: y) ≠ '#' := by
    intro y
    simp only [peek_cons]
    decide
  have key : ∀ y : List Char, (strtoul y).1 % 256 = 0 → parse_note (p ++ '/' :: y) = none := by
    intro y hy
    obtain ⟨hv, ha⟩ := after_note_of_note_part p ('/' :: y) hp (hsl y)
    have hdr : divisor_read (p ++ '/' :: y) = 0 := by
      simp only [divisor_read, ha, peek_cons, if_true, List.tail_cons, hy]
    rw [parse_note_reads_token _ hv, hdr, if_pos rfl]
  refine ⟨fun tail ht => ⟨key _ ?_, key _ ?_⟩, fun tail ht => key _ ?_⟩
  · rw [strtoul_zero tail ht]
    rfl
  · rw [strtoul_256 tail ht]
    exact Nat.mod_self 256
  · rw [strtoul_no_number tail ht]
    rfl

/-- Success on every note part that stands alone. -/
theorem parse_note_note_part (p : List Char) (hp : is_note_part p = true) :
    ∃ f, parse_note p = some { freq := f, duration_ms := 125 } := by
  obtain ⟨hv, ha⟩ := after_note_of_note_part p [] hp (by decide)
  rw [List.append_nil] at hv ha
  have hdr : divisor_read p = 4 := by
    have hN : NUL ≠ '/' := by decide
    simp [divisor_read, ha, peek, hN]
  rw [parse_note_reads_token _ hv, hdr, if_neg (by omega)]
  exact ⟨_, rfl⟩

/-- A divisor written after the note part is the divisor used. -/
theorem parse_note_written_divisor (s tail : List Char) (d : Nat) (hv : valid_first s)
    (hd1 : 1 ≤ d) (hd : d ≤ 255) (ht : isdigit (peek tail) = false)
    (ha : after_note s = '/' :: (Nat.toDigits 10 d ++ tail)) :
    divisor_read s = d ∧ ∃ f, parse_note s = some { freq := f, duration_ms := 500 / d } := by
  have hs := strtoul_digits d hd1 hd tail ht
  have hdr : divisor_read s = d := by
    simp only [divisor_read, ha, peek_cons, if_true, List.tail_cons, hs]
    exact Nat.mod_eq_of_lt (by omega)
  refine ⟨hdr, ?_⟩
  rw [parse_note_reads_token _ hv, hdr, if_neg (by omega)]
  exact ⟨_, rfl⟩

theorem tick_forced_implies_pending (s : ButtonState) (v r : ℚ)
    (h : s.force_poweroff = true → s.will_poweroff = true) :
    (hw_sample_shutdown_button s v r).state.force_poweroff = true →
      (hw_sample_shutdown_button s v r).state.will_poweroff = true := by
  unfold hw_sample_shutdown_button
  dsimp only
  split_ifs <;> simp_all

theorem final_state_forced_implies_pending (l : List (ℚ × ℚ)) :
    ∀ s : ButtonState, (s.force_poweroff = true → s.will_poweroff = true) →
      (final_state s l).force_poweroff = true → (final_state s l).will_poweroff = true := by
  induction l with
  | nil =>
    intro s h
    exact h
  | cons x xs ih =>
    intro s h
    exact ih _ (tick_forced_implies_pending s x.1 x.2 h)

/-- C11: in every state reached from the boot state (all variables zero, both flags
clear) by any finite sequence of ticks, with arbitrary samples and speeds,
force_poweroff implies will_poweroff. -/
theorem forced_implies_pending (l : List (ℚ × ℚ))
    (h : (final_state boot l).force_poweroff = true) :
    (final_state boot l).will_poweroff = true :=
  final_state_forced_implies_pending l boot (fun h0 => Bool.noConfusion h0) h

theorem forced_implies_pending_witness :
    (final_state boot ((1, 0) :: (1, 0) :: List.replicate 301 (1.2, 500))).force_poweroff = true
      ∧ (final_state boot
          ((1, 0) :: (1, 0) :: List.replicate 301 (1.2, 500))).will_poweroff = true :=
  ⟨by decide!,
    forced_implies_pending ((1, 0) :: (1, 0) :: List.replicate 301 (1.2, 500)) (by decide!)⟩

/-- C12: on the example melody of its own documentation `play_melody` plays four
notes, D D F D, not sixteen: after the first group the pointer is on the second of
the two spaces, `parse_note` rejects the space and the playback stops. With single
spaces between the groups all sixteen notes are played. -/
theorem documented_example_stops_after_four_notes :
    play_melody MEL_DOC_EXAMPLE.toList
        = [{ freq := Freq.tone (-7), duration_ms := 125 },
           { freq := Freq.tone (-7), duration_ms := 125 },
           { freq := Freq.tone (-4), duration_ms := 125 },
           { freq := Freq.tone (-7), duration_ms := 125 }]
      ∧ (play_melody MEL_DOC_EXAMPLE.toList).length = 4
      ∧ parse_note " F G C5 A  A3 A3 C A3  C D G E".toList = none
      ∧ (play_melody "D D F D F G C5 A A3 A3 C A3 C D G E".toList).length = 16 := by
  decide!

theorem tim_clock_bounds : TIM_CLOCK / 65000 = 30 ∧ TIM_CLOCK / 100 = 20000 := by
  decide

theorem clamp_low (f : Nat) (hf : f ≤ 30) :
    utils_truncate_number_uint32 f (TIM_CLOCK / 65000) (TIM_CLOCK / 100) = 30 := by
  rw [tim_clock_bounds.1, tim_clock_bounds.2]
  unfold utils_truncate_number_uint32
  split_ifs <;> omega

theorem clamp_high (f : Nat) (hf : 31 ≤ f) :
    31 ≤ utils_truncate_number_uint32 f (TIM_CLOCK / 65000) (TIM_CLOCK / 100)
      ∧ utils_truncate_number_uint32 f (TIM_CLOCK / 65000) (TIM_CLOCK / 100) ≤ 20000 := by
  rw [tim_clock_bounds.1, tim_clock_bounds.2]
  unfold utils_truncate_number_uint32
  split_ifs <;> omega

/-- C13: the clamp of `pwm_buzzer_init` does not prevent the overflow it is meant to
prevent. Its lower bound is TIM_CLOCK / 65000 = 30, so a request of 30 Hz or less
returns 30 Hz, outside the range from 31 Hz, and the period 2000000 / 30 = 66666
exceeds 65535: the 16-bit cast leaves 1130 in the reload register. From 31 Hz on
the returned frequency lies between 31 and 20000 Hz, the period is at most 65535
and the cast loses nothing. -/
theorem pwm_buzzer_init_period_overflows_at_30 :
    (TIM_CLOCK / 65000 = 30 ∧ TIM_CLOCK / 100 = 20000)
      ∧ ((pwm_buzzer_init 30).freq_hz = 30
        ∧ TIM_CLOCK / (pwm_buzzer_init 30).freq_hz = 66666
        ∧ ¬ TIM_CLOCK / (pwm_buzzer_init 30).freq_hz ≤ 65535
        ∧ (pwm_buzzer_init 30).ARR = 1130
        ∧ (pwm_buzzer_init 30).ARR ≠ TIM_CLOCK / (pwm_buzzer_init 30).freq_hz)
      ∧ (∀ f : Nat, f ≤ 30 → pwm_buzzer_init f = pwm_buzzer_init 30)
      ∧ (∀ f : Nat, 31 ≤ f →
          31 ≤ (pwm_buzzer_init f).freq_hz ∧ (pwm_buzzer_init f).freq_hz ≤ 20000
            ∧ TIM_CLOCK / (pwm_buzzer_init f).freq_hz ≤ 65535
            ∧ (pwm_buzzer_init f).ARR = TIM_CLOCK / (pwm_buzzer_init f).freq_hz) := by
  refine ⟨tim_clock_bounds, by decide!, ?_, ?_⟩
  · intro f hf
    simp only [pwm_buzzer_init, clamp_low f hf, clamp_low 30 (le_refl 30)]
  · intro f hf
    obtain ⟨h1, h2⟩ := clamp_high f hf
    have hp : TIM_CLOCK / utils_truncate_number_uint32 f (TIM_CLOCK / 65000) (TIM_CLOCK / 100)
        ≤ 65535 := by
      have h3 : TIM_CLOCK
          / utils_truncate_number_uint32 f (TIM_CLOCK / 65000) (TIM_CLOCK / 100)
          ≤ TIM_CLOCK / 31 := Nat.div_le_div_left h1 (by decide)
      have h4 : TIM_CLOCK / 31 = 64516 := by decide
      omega
    refine ⟨h1, h2, hp, ?_⟩
    show (TIM_CLOCK / _) % 65536 = TIM_CLOCK / _
    exact Nat.mod_eq_of_lt (by omega)

end Bldc
